import Mathlib

/-!
Verification model of the `orf` library (option / result / future containers).

The definitions below are shallow embeddings of the TypeScript sources:
  - `src/option.ts`  (the `Option` container: `Opt`, `Opt.fromNullable`, `Opt.fromJSON`, taps)
  - `src/result.ts`  (the `Result` container: `Res`, `Res.all`, `Res.fromJSON`, taps)
  - `src/future.ts`  (the `Future` / `FallibleFuture` / `UnwrappedFuture` state machines)

JavaScript runtime values are modelled by the dynamic type `Val`; fallible
code is modelled with `Except`; the futures' synchronous callback protocol is
modelled by a small-step interpreter over a heap of future objects, with
user-supplied callbacks represented as abstract tokens whose invocations are
recorded on a trace.
-/

namespace Orf

/-- Dynamic JavaScript runtime values.  `okv`/`errv` are `Result.Ok`/`Result.Error`
objects, `ref` is a reference into the mutable object heap used by the `tap`
model, `jsError` is a thrown `Error` object. -/
inductive Val : Type where
  | vnull : Val
  | undef : Val
  | bool : Bool → Val
  | num : Int → Val
  | str : String → Val
  | arr : List Val → Val
  | dict : List (String × Val) → Val
  | okv : Val → Val
  | errv : Val → Val
  | jsError : String → Val
  | ref : Nat → Val

/-- JavaScript truthiness: `null`, `undefined`, `false`, `0`, and `""` are falsy
(`NaN` does not arise for integer numbers); every object is truthy. -/
def truthy : Val → Bool
  | .vnull => false
  | .undef => false
  | .bool b => b
  | .num n => !(n = 0)
  | .str s => !(s = "")
  | _ => true

/-- The `Option<T>` container (`__Some` / `__None` from src/option.ts). -/
inductive Opt : Type where
  | Some : Val → Opt
  | None : Opt

/-- The `Result<T, E>` container (`__Ok` / `__Error` from src/result.ts),
generic in both payload types. -/
inductive Res (T E : Type) : Type where
  | Ok : T → Res T E
  | Error : E → Res T E

/-- Models `Option.from` from src/option.ts:
`return !thing ? None() : Some(thing);` -/
def Opt.fromNullable (thing : Val) : Opt :=
  if !truthy thing then .None else .Some thing

/-- A serialized-form JSON object, with each field optional (absent fields read
as `undefined` in JavaScript). -/
structure JsonObj : Type where
  orfType : Option String
  tag : Option String
  value : Option Val
  error : Option Val

/-- Models `Option.fromJSON` from src/option.ts:
it throws when `json.__orf_type__ !== "Option"`, returns `Some(json.value)`
when `json.tag === "Some"` (even when the `value` field is absent, in which
case the payload is `undefined`), and returns `None()` for every other tag. -/
def Opt.fromJSON (json : JsonObj) : Except String Opt :=
  if json.orfType ≠ some ("Option") then
    .error ("Invalid Option JSON")
  else if json.tag = some ("Some") then
    .ok (.Some (json.value.getD .undef))
  else
    .ok .None

/-- Models `Result.fromJSON` from src/result.ts:
it throws when `json.__orf_type__ !== "Result"` AND the `tag` field is absent
(note the conjunction in the source), returns `Ok(json.value)` when
`json.tag === "Ok" && "value" in json`, returns `Error(json.error)` when
`json.tag === "Error" && "error" in json`, and otherwise throws. -/
def Res.fromJSON (json : JsonObj) : Except String (Res Val Val) :=
  if json.orfType ≠ some ("Result") ∧ json.tag = none then
    .error ("Invalid Result JSON")
  else if json.tag = some ("Ok") ∧ json.value.isSome then
    .ok (.Ok (json.value.getD .undef))
  else if json.tag = some ("Error") ∧ json.error.isSome then
    .ok (.Error (json.error.getD .undef))
  else
    .error ("Invalid Result JSON")

/-- Loop body of `Result.all` from src/result.ts: walk the array keeping the
values pushed so far; return the first `Error` found, else `Ok` of the values. -/
def Res.allGo {T E : Type} : List (Res T E) → List T → Res (List T) E
  | [], values => .Ok values
  | .Error e :: _, _ => .Error e
  | .Ok v :: rest, values => Res.allGo rest (values ++ [v])

/-- Models `Result.all` from src/result.ts. -/
def Res.all {T E : Type} (array : List (Res T E)) : Res (List T) E :=
  Res.allGo array []

/-- A mutable JavaScript object on the heap used by the `tap` model: a single
integer field together with its `Object.isFrozen` status. -/
structure Cell : Type where
  n : Int
  frozen : Bool

/-- The mutable-object heap; `Val.ref a` points at `h[a]`. -/
abbrev Heap := List Cell

/-- Models `structuredClone(value)`: a reference is deep-copied to a fresh, unfrozen
cell; primitives are returned unchanged. -/
def structuredCloneV (h : Heap) (v : Val) : Heap × Val :=
  match v with
  | .ref a =>
      match h[a]? with
      | some c => (h ++ [⟨c.n, false⟩], .ref h.length)
      | none => (h, v)
  | _ => (h, v)

/-- Models `Object.freeze(value)` on a heap reference (shallow; returns its argument
in JavaScript, so only the heap effect is modelled). -/
def objFreeze (h : Heap) (v : Val) : Heap :=
  match v with
  | .ref a =>
      match h[a]? with
      | some c => h.set a ⟨c.n, true⟩
      | none => h
  | _ => h

/-- Models `__Some.tap` / `__None.tap` from src/option.ts:
`__Some.tap` is `fn(this.value); return this;` — the callback receives the
live payload reference, with no cloning and no freezing; `__None.tap` returns
`this` without invoking the callback.  The callback may mutate the heap or
throw. -/
def Opt.tap (h : Heap) (o : Opt) (fn : Heap → Val → Except String Heap) :
    Except String (Heap × Opt) :=
  match o with
  | .Some v => (fn h v).map (fun h2 => (h2, o))
  | .None => .ok (h, o)

/-- Models `__Ok.tap` / `__Error.tap` from src/result.ts:
`__Ok.tap` is `fn(Object.freeze(structuredClone(this.value))); return this;`
— the callback receives a frozen deep clone; `__Error.tap` returns `this`
without invoking the callback. -/
def Res.tap (h : Heap) (r : Res Val Val) (fn : Heap → Val → Except String Heap) :
    Except String (Heap × Res Val Val) :=
  match r with
  | .Ok v =>
      let p := structuredCloneV h v
      let h2 := objFreeze p.1 p.2
      (fn h2 p.2).map (fun h3 => (h3, r))
  | .Error _ => .ok (h, r)

/-- Callbacks that can sit in a future's subscriber lists or cleanup slot.
`user k` is an abstract caller-supplied callback (its invocations are recorded
on the trace); the remaining constructors are the closures the library itself
installs:
  - `resolveFut i`: a bound `#resolve` of future `i`;
  - `succeedFut i` / `failFut i`: bound `#succeed` / `#fail` of fallible
    future `i` (they wrap the argument in a `Result`);
  - `cancelFut i`: a bound `cancel` of future `i`;
  - `cancelList l`: the cleanup closure `() => array.forEach(f => f.cancel())`;
  - `mapResolve i f`: the subscriber installed by `map`, `value => resolve(map_fn(value))`;
  - `allElem j idx fallibleMode`: the per-element subscriber of `Future.all`
    for aggregate `j`, element index `idx`;
  - `allDictElem j key fallibleMode`: the per-element subscriber of
    `Future.allFromDict` for aggregate `j`, key `key`;
  - `finishUCancel i`: the tail of `__UnwrappedFuture.cancel` that re-checks
    the state after invoking the cancel slot. -/
inductive Cb : Type where
  | user : Nat → Cb
  | resolveFut : Nat → Cb
  | succeedFut : Nat → Cb
  | failFut : Nat → Cb
  | cancelFut : Nat → Cb
  | cancelList : List Nat → Cb
  | mapResolve : Nat → (Val → Val) → Cb
  | allElem : Nat → Nat → Bool → Cb
  | allDictElem : Nat → String → Bool → Cb
  | finishUCancel : Nat → Cb

/-- Whether a future is a `__Future` (plain) or a `__FallibleFuture`. -/
inductive FKind : Type where
  | plain
  | fallible
deriving DecidableEq

/-- Models `FutureState` / `FallibleFutureState` from src/future.ts (after the start
routine has run; a fallible future's `completed` value is the stored `Result`
object). -/
inductive FState : Type where
  | pending (resolveCbs : List Cb) (cleanup : Option Cb) (cancelCbs : List Cb)
  | completed (value : Val)
  | cancelled

/-- Models `UnwrappedFutureState` from src/future.ts. -/
inductive UState : Type where
  | pending (resolveCbs : List Cb)
  | completed (value : Val)
  | cancelled

/-- A heap object: a plain/fallible future, or an `__UnwrappedFuture` with
its single `#cancel` slot. -/
inductive Obj : Type where
  | fut (kind : FKind) (st : FState)
  | ufut (st : UState) (cancelSlot : Option Cb)

/-- The closure environment of one `Future.all` execute: the `results` array
(slots indexed by element position) and the `count` counter. -/
structure AggCtx : Type where
  slots : List (Option Val)
  count : Nat

/-- The closure environment of one `Future.allFromDict` execute: the `results`
object (keys in insertion order, i.e. resolution order), the `count` counter
and the captured `item_count`. -/
structure DictCtx : Type where
  results : List (String × Val)
  count : Nat
  itemCount : Nat

/-- A recorded invocation of a user callback: token and argument (`none` for
nullary cancel subscribers). -/
abbrev TraceEv := Nat × Option Val

/-- The whole mutable state: the future heap, the aggregate closure
environments, and the trace of user-callback invocations. -/
structure World : Type where
  objs : List Obj
  aggs : List (Nat × AggCtx)
  dictAggs : List (Nat × DictCtx)
  trace : List TraceEv

/-- The empty world. -/
def W0 : World := ⟨[], [], [], []⟩

/-- A pending invocation: a callback together with its argument. -/
abbrev Call := Cb × Option Val

def getObj (w : World) (i : Nat) : Option Obj := w.objs[i]?

def setObj (w : World) (i : Nat) (o : Obj) : World :=
  {w with objs := w.objs.set i o}

def pushTrace (w : World) (k : Nat) (a : Option Val) : World :=
  {w with trace := w.trace ++ [(k, a)]}

/-- Models `__Future.#resolve` / `__UnwrappedFuture.#resolve` (and the common core of
`__FallibleFuture.#succeed` / `#fail`, which pass the constructed `Result`):
if pending, the state becomes `completed value` and the captured resolve
callbacks are invoked, in order, with the value; otherwise a no-op. -/
def resolvePrim (w : World) (i : Nat) (v : Val) : World × List Call :=
  match getObj w i with
  | some (.fut k (.pending rcbs _ _)) =>
      (setObj w i (.fut k (.completed v)), rcbs.map (fun cb => (cb, some v)))
  | some (.ufut (.pending rcbs) slot) =>
      (setObj w i (.ufut (.completed v) slot), rcbs.map (fun cb => (cb, some v)))
  | _ => (w, [])

/-- Models `__Future.cancel` / `__FallibleFuture.cancel` / `__UnwrappedFuture.cancel`:
for a plain/fallible future, a pending state becomes `cancelled`, then the
cleanup routine (if any) and the queued cancel subscribers run in order; for an
unwrapped future with an empty `#cancel` slot the state just becomes
`cancelled`, while a filled slot is invoked with an `Error` and the state is
re-checked afterwards (`finishUCancel`).  Anything non-pending: no-op. -/
def cancelPrim (w : World) (i : Nat) : World × List Call :=
  match getObj w i with
  | some (.fut k (.pending _ cleanup ccbs)) =>
      (setObj w i (.fut k .cancelled),
        (cleanup.toList ++ ccbs).map (fun cb => (cb, none)))
  | some (.ufut (.pending _) none) =>
      (setObj w i (.ufut .cancelled none), [])
  | some (.ufut (.pending _) (some c)) =>
      (w, [(c, some (.jsError ("Cannot cancel UnwrappedFuture"))),
           (.finishUCancel i, none)])
  | _ => (w, [])

/-- The tail of `__UnwrappedFuture.cancel`: after the `#cancel` slot ran, a
still-pending state becomes `cancelled`. -/
def finishUCancelPrim (w : World) (i : Nat) : World :=
  match getObj w i with
  | some (.ufut (.pending _) slot) => setObj w i (.ufut .cancelled slot)
  | _ => w

/-- Models `onResolved(cb)`: append to the pending list, or fire synchronously with
the stored value when already completed; no-op when cancelled. -/
def onResolvedPrim (w : World) (i : Nat) (cb : Cb) : World × List Call :=
  match getObj w i with
  | some (.fut k (.pending rcbs cl ccbs)) =>
      (setObj w i (.fut k (.pending (rcbs ++ [cb]) cl ccbs)), [])
  | some (.fut _ (.completed v)) => (w, [(cb, some v)])
  | some (.ufut (.pending rcbs) slot) =>
      (setObj w i (.ufut (.pending (rcbs ++ [cb])) slot), [])
  | some (.ufut (.completed v) _) => (w, [(cb, some v)])
  | _ => (w, [])

/-- Models `onCancelled(cb)`: for plain/fallible futures, append to the pending
cancel list, or fire synchronously when already cancelled; no-op when
completed.  For unwrapped futures (`__UnwrappedFuture.onCancelled`): store the
callback in the empty `#cancel` slot while pending, or invoke it with an
`Error` when already cancelled with an empty slot. -/
def onCancelledPrim (w : World) (i : Nat) (cb : Cb) : World × List Call :=
  match getObj w i with
  | some (.fut k (.pending rcbs cl ccbs)) =>
      (setObj w i (.fut k (.pending rcbs cl (ccbs ++ [cb]))), [])
  | some (.fut _ .cancelled) => (w, [(cb, none)])
  | some (.ufut (.pending rcbs) none) =>
      (setObj w i (.ufut (.pending rcbs) (some cb)), [])
  | some (.ufut .cancelled none) =>
      (w, [(cb, some (.jsError ("Cannot cancel UnwrappedFuture")))])
  | _ => (w, [])

/-- Models the store `if (cancel) { this.#state.cancel = cancel; }` after the start routine
returned: records the cleanup routine while the future is still pending (a
store onto a completed/cancelled state object is dead in the source). -/
def setCleanup (w : World) (i : Nat) (cb : Cb) : World :=
  match getObj w i with
  | some (.fut k (.pending rcbs _ ccbs)) =>
      setObj w i (.fut k (.pending rcbs (some cb) ccbs))
  | _ => w

/-- Models `Result.all(results).match({ Ok: ok, Error: error })` as performed by
the fallible branch of `Future.all` on the collected `Result` values: the stored
aggregate `Result` is the first `Error` found, else `Ok` of the collected
payload array; `none` models the crash on a non-`Result` element. -/
def resultAllVGo : List Val → List Val → Option Val
  | [], values => some (.okv (.arr values))
  | .errv e :: _, _ => some (.errv e)
  | .okv v :: rest, values => resultAllVGo rest (values ++ [v])
  | _ :: _, _ => none

def resultAllV (l : List Val) : Option Val := resultAllVGo l []

/-- Models `Result.allFromDict(results).match({ Ok: ok, Error: error })` as performed
by the fallible branch of `Future.allFromDict`: iterate the results object in key
insertion order, return the first `Error`, else `Ok` of the same-shaped
object. -/
def resultAllDictGo : List (String × Val) → List (String × Val) → Option Val
  | [], acc => some (.okv (.dict acc))
  | (_, .errv e) :: _, _ => some (.errv e)
  | (k, .okv v) :: rest, acc => resultAllDictGo rest (acc ++ [(k, v)])
  | _ :: _, _ => none

/-- Models the per-element subscriber of `Future.all`:
`value => { results[i] = value; count += 1;
if (count === array.length) <resolve the aggregate> }`;
in fallible mode the aggregate resolution goes through `Result.all` and the
aggregate's `succeed`/`fail`. -/
def allElemStep (w : World) (j idx : Nat) (fallibleMode : Bool) (v : Val) :
    World × List Call :=
  match w.aggs.lookup j with
  | none => (w, [])
  | some ctx =>
      let slots := ctx.slots.set idx (some v)
      let count := ctx.count + 1
      let w1 : World :=
        {w with aggs := w.aggs.map (fun p => if p.1 = j then (j, ⟨slots, count⟩) else p)}
      if count = slots.length then
        if fallibleMode then
          match resultAllV (slots.map (fun o => o.getD .undef)) with
          | some r => resolvePrim w1 j r
          | none => (w1, [])
        else
          resolvePrim w1 j (.arr (slots.map (fun o => o.getD .undef)))
      else (w1, [])

/-- Models the per-element subscriber of `Future.allFromDict` (same shape as `allElem`,
with the results object keyed by the element's key). -/
def allDictElemStep (w : World) (j : Nat) (key : String) (fallibleMode : Bool)
    (v : Val) : World × List Call :=
  match w.dictAggs.lookup j with
  | none => (w, [])
  | some ctx =>
      let results :=
        if ctx.results.any (fun p => p.1 = key) then
          ctx.results.map (fun p => if p.1 = key then (key, v) else p)
        else ctx.results ++ [(key, v)]
      let count := ctx.count + 1
      let w1 : World :=
        {w with dictAggs :=
          w.dictAggs.map (fun p =>
            if p.1 = j then (j, ⟨results, count, ctx.itemCount⟩) else p)}
      if count = ctx.itemCount then
        if fallibleMode then
          match resultAllDictGo results [] with
          | some r => resolvePrim w1 j r
          | none => (w1, [])
        else
          resolvePrim w1 j (.dict results)
      else (w1, [])

/-- One callback invocation: returns the mutated world and the nested calls it
makes, in order. -/
def step (w : World) (c : Cb) (a : Option Val) : World × List Call :=
  match c with
  | .user k => (pushTrace w k a, [])
  | .resolveFut i => resolvePrim w i (a.getD .undef)
  | .succeedFut i => resolvePrim w i (.okv (a.getD .undef))
  | .failFut i => resolvePrim w i (.errv (a.getD .undef))
  | .cancelFut i => cancelPrim w i
  | .cancelList l => (w, l.map (fun i => (Cb.cancelFut i, none)))
  | .mapResolve i f => resolvePrim w i (f (a.getD .undef))
  | .allElem j idx fallibleMode => allElemStep w j idx fallibleMode (a.getD .undef)
  | .allDictElem j key fallibleMode => allDictElemStep w j key fallibleMode (a.getD .undef)
  | .finishUCancel i => (finishUCancelPrim w i, [])

/-- Run a list of pending calls to completion, depth-first (each call's nested
calls run before the remaining queued calls, matching JavaScript's synchronous
nesting); `fuel` bounds the number of invocations. -/
def run : Nat → World → List Call → Option World
  | _, w, [] => some w
  | 0, _, _ :: _ => none
  | fuel + 1, w, c :: rest =>
      let p := step w c.1 c.2
      run fuel p.1 (p.2 ++ rest)

/-- The `resolve` completion callback handed to a plain future's start
routine, invoked from the driver. -/
def doResolve (fuel : Nat) (w : World) (i : Nat) (v : Val) : Option World :=
  let p := resolvePrim w i v
  run fuel p.1 p.2

/-- Models `__FallibleFuture.#succeed`: stores `Result.Ok(value)` and fires the
resolve subscribers with it. -/
def doSucceed (fuel : Nat) (w : World) (i : Nat) (v : Val) : Option World :=
  let p := resolvePrim w i (.okv v)
  run fuel p.1 p.2

/-- Models `__FallibleFuture.#fail`: stores `Result.Error(error)` and fires the
resolve subscribers with it. -/
def doFail (fuel : Nat) (w : World) (i : Nat) (e : Val) : Option World :=
  let p := resolvePrim w i (.errv e)
  run fuel p.1 p.2

/-- A public `cancel()` call from the driver. -/
def doCancel (fuel : Nat) (w : World) (i : Nat) : Option World :=
  let p := cancelPrim w i
  run fuel p.1 p.2

/-- A public `onResolved` subscription with a user callback. -/
def doOnResolved (fuel : Nat) (w : World) (i : Nat) (k : Nat) : Option World :=
  let p := onResolvedPrim w i (.user k)
  run fuel p.1 p.2

/-- A public `onCancelled` subscription with a user callback. -/
def doOnCancelled (fuel : Nat) (w : World) (i : Nat) (k : Nat) : Option World :=
  let p := onCancelledPrim w i (.user k)
  run fuel p.1 p.2

/-- Models `Future.isFuture` (instanceof `__Future`). -/
def isFuture (w : World) (i : Nat) : Bool :=
  match getObj w i with
  | some (.fut .plain _) => true
  | _ => false

/-- Models `Future.isFallibleFuture` (instanceof `__FallibleFuture`). -/
def isFallibleFuture (w : World) (i : Nat) : Bool :=
  match getObj w i with
  | some (.fut .fallible _) => true
  | _ => false

/-- Models `__Future.map` from src/future.ts: eagerly constructs the derived future
`j`; the execute subscribes `value => resolve(map_fn(value))` on the source
and returns `this.cancel.bind(this)` (cancel the source) as cleanup; the
source's cancellation is then propagated to `j`. -/
def Fut.map (w : World) (i : Nat) (f : Val → Val) : Option (World × Nat) :=
  let j := w.objs.length
  let w1 : World := {w with objs := w.objs ++ [.fut .plain (.pending [] none [])]}
  let p1 := onResolvedPrim w1 i (.mapResolve j f)
  (run 16 p1.1 p1.2).bind (fun w2 =>
    let w3 := setCleanup w2 j (.cancelFut i)
    let p2 := onCancelledPrim w3 i (.cancelFut j)
    (run 16 p2.1 p2.2).map (fun w4 => (w4, j)))

/-- Models `__Future.neverError` from src/future.ts: like `map`, but the derived
future is fallible and the subscriber is its `succeed` callback, so the
derived future resolves to `Result.Ok` of the source's value and never fails. -/
def Fut.neverError (w : World) (i : Nat) : Option (World × Nat) :=
  let j := w.objs.length
  let w1 : World := {w with objs := w.objs ++ [.fut .fallible (.pending [] none [])]}
  let p1 := onResolvedPrim w1 i (.succeedFut j)
  (run 16 p1.1 p1.2).bind (fun w2 =>
    let w3 := setCleanup w2 j (.cancelFut i)
    let p2 := onCancelledPrim w3 i (.cancelFut j)
    (run 16 p2.1 p2.2).map (fun w4 => (w4, j)))

/-- Models `__Future.unwrap` / `__FallibleFuture.unwrap` from src/future.ts: a fresh
`UnwrappedFuture` `u` whose execute subscribes the resolve of `u` on the source
(returning no cleanup); the source's cancellation is then propagated to
`u.cancel`. -/
def Fut.unwrap (w : World) (i : Nat) : Option (World × Nat) :=
  let u := w.objs.length
  let w1 : World := {w with objs := w.objs ++ [.ufut (.pending []) none]}
  let p1 := onResolvedPrim w1 i (.resolveFut u)
  (run 16 p1.1 p1.2).bind (fun w2 =>
    let p2 := onCancelledPrim w2 i (.cancelFut u)
    (run 16 p2.1 p2.2).map (fun w3 => (w3, u)))

/-- Awaiting an `UnwrappedFuture`: the host's `await` machinery invokes the
(runtime-visible) private `then(onResolved, onCancelled)` with a fulfilment
handler and a rejection handler — an invocation of the rejection handler is an
exception surfacing to the awaiter. -/
def Fut.uThen (fuel : Nat) (w : World) (u kres krej : Nat) : Option World :=
  let p1 := onResolvedPrim w u (.user kres)
  (run fuel p1.1 p1.2).bind (fun w2 =>
    let p2 := onCancelledPrim w2 u (.user krej)
    run fuel p2.1 p2.2)

/-- The `array.forEach((f, i) => f.onResolved(...))` loop of the plain
branch of `Future.all`, over (index, future id) pairs. -/
def Fut.allSubscribePlain (fuel : Nat) (j : Nat) :
    World → List (Nat × Nat) → Option World
  | w, [] => some w
  | w, (idx, i) :: rest =>
      let p := onResolvedPrim w i (.allElem j idx false)
      (run fuel p.1 p.2).bind (fun w2 => Fut.allSubscribePlain fuel j w2 rest)

/-- The `for` loop of the fallible branch of `Future.all`: each plain element is
first promoted with `neverError()`, then subscribed. -/
def Fut.allSubscribeFallible (fuel : Nat) (j : Nat) :
    World → List (Nat × Nat) → Option World
  | w, [] => some w
  | w, (idx, i) :: rest =>
      (if isFuture w i then Fut.neverError w i else some (w, i)).bind (fun q =>
        let p := onResolvedPrim q.1 q.2 (.allElem j idx true)
        (run fuel p.1 p.2).bind (fun w2 => Fut.allSubscribeFallible fuel j w2 rest))

/-- The trailing `array.forEach((f) => f.onCancelled(future.cancel))` loop of
`Future.all` / `Future.allFromDict` over the original elements. -/
def Fut.subscribeCancelAll (fuel : Nat) (j : Nat) :
    World → List Nat → Option World
  | w, [] => some w
  | w, i :: rest =>
      let p := onCancelledPrim w i (.cancelFut j)
      (run fuel p.1 p.2).bind (fun w2 => Fut.subscribeCancelAll fuel j w2 rest)

/-- Models `Future.all` from src/future.ts over an array of future ids.  When no
element is fallible, a plain aggregate collects the raw values; otherwise
plain elements are promoted via `neverError()` and a fallible aggregate
resolves through `Result.all`.  Either way the cleanup cancels every element
and every element's cancellation cancels the aggregate.  `fuel` bounds the
synchronous cascade of the construction. -/
def Fut.all (fuel : Nat) (w : World) (arr : List Nat) : Option (World × Nat) :=
  let hasFallible := arr.any (fun i => isFallibleFuture w i)
  let j := w.objs.length
  if !hasFallible then
    let w1 : World :=
      {w with objs := w.objs ++ [.fut .plain (.pending [] none [])],
              aggs := w.aggs ++ [(j, ⟨List.replicate arr.length none, 0⟩)]}
    (Fut.allSubscribePlain fuel j w1 arr.enum).bind (fun w2 =>
      let w3 := setCleanup w2 j (.cancelList arr)
      (Fut.subscribeCancelAll fuel j w3 arr).map (fun w4 => (w4, j)))
  else
    let w1 : World :=
      {w with objs := w.objs ++ [.fut .fallible (.pending [] none [])],
              aggs := w.aggs ++ [(j, ⟨List.replicate arr.length none, 0⟩)]}
    (Fut.allSubscribeFallible fuel j w1 arr.enum).bind (fun w2 =>
      let w3 := setCleanup w2 j (.cancelList arr)
      (Fut.subscribeCancelAll fuel j w3 arr).map (fun w4 => (w4, j)))

/-- The `for (const key in dict)` subscription loop of the plain
branch of `Future.allFromDict`. -/
def Fut.allDictSubscribePlain (fuel : Nat) (j : Nat) :
    World → List (String × Nat) → Option World
  | w, [] => some w
  | w, (key, i) :: rest =>
      let p := onResolvedPrim w i (.allDictElem j key false)
      (run fuel p.1 p.2).bind (fun w2 => Fut.allDictSubscribePlain fuel j w2 rest)

/-- The `for (const key in dict)` loop of the fallible branch of
`Future.allFromDict`, with `neverError()` promotion of plain elements. -/
def Fut.allDictSubscribeFallible (fuel : Nat) (j : Nat) :
    World → List (String × Nat) → Option World
  | w, [] => some w
  | w, (key, i) :: rest =>
      (if isFuture w i then Fut.neverError w i else some (w, i)).bind (fun q =>
        let p := onResolvedPrim q.1 q.2 (.allDictElem j key true)
        (run fuel p.1 p.2).bind (fun w2 => Fut.allDictSubscribeFallible fuel j w2 rest))

/-- Models `Future.allFromDict` from src/future.ts over an ordered key → future id
dictionary (JavaScript object keys iterate in insertion order). -/
def Fut.allFromDict (fuel : Nat) (w : World) (dict : List (String × Nat)) :
    Option (World × Nat) :=
  let vals := dict.map (fun p => p.2)
  let hasFallible := vals.any (fun i => isFallibleFuture w i)
  let j := w.objs.length
  if !hasFallible then
    let w1 : World :=
      {w with objs := w.objs ++ [.fut .plain (.pending [] none [])],
              dictAggs := w.dictAggs ++ [(j, ⟨[], 0, dict.length⟩)]}
    (Fut.allDictSubscribePlain fuel j w1 dict).bind (fun w2 =>
      let w3 := setCleanup w2 j (.cancelList vals)
      (Fut.subscribeCancelAll fuel j w3 vals).map (fun w4 => (w4, j)))
  else
    let w1 : World :=
      {w with objs := w.objs ++ [.fut .fallible (.pending [] none [])],
              dictAggs := w.dictAggs ++ [(j, ⟨[], 0, dict.length⟩)]}
    (Fut.allDictSubscribeFallible fuel j w1 dict).bind (fun w2 =>
      let w3 := setCleanup w2 j (.cancelList vals)
      (Fut.subscribeCancelAll fuel j w3 vals).map (fun w4 => (w4, j)))

/-- The observable lifecycle tag of a future. -/
inductive Tag : Type where
  | pending
  | completed
  | cancelled
deriving DecidableEq

/-- Observable state tag of the future at id `i`. -/
def tagOf (w : World) (i : Nat) : Option Tag :=
  match getObj w i with
  | some (.fut _ (.pending _ _ _)) => some .pending
  | some (.fut _ (.completed _)) => some .completed
  | some (.fut _ .cancelled) => some .cancelled
  | some (.ufut (.pending _) _) => some .pending
  | some (.ufut (.completed _) _) => some .completed
  | some (.ufut .cancelled _) => some .cancelled
  | none => none

/-- Observable resolved value of the future at id `i` (when completed). -/
def valueOf (w : World) (i : Nat) : Option Val :=
  match getObj w i with
  | some (.fut _ (.completed v)) => some v
  | some (.ufut (.completed v) _) => some v
  | _ => none

/-- Append a batch of user-callback invocation records to the trace. -/
def pushTraces (w : World) (evs : List TraceEv) : World :=
  {w with trace := w.trace ++ evs}

/-- The mutating callback used by the repository's own test
`Option.tap doesn't modify the value`: `(val) => val.test++` — it increments
the referenced object's field, which throws a `TypeError` on a frozen object
(strict mode). -/
def mutateField (h : Heap) (v : Val) : Except String Heap :=
  match v with
  | .ref a =>
      match h[a]? with
      | some c =>
          if c.frozen then .error ("TypeError")
          else .ok (h.set a ⟨c.n + 1, false⟩)
      | none => .error ("TypeError")
  | _ => .error ("TypeError")

/-- The operations external code can perform on the aggregate future returned
by an empty `Future.all` / `Future.allFromDict`: subscribing user callbacks
and cancelling.  (The aggregate's `resolve` is captured only by the
per-element subscribers, of which there are none.)  Each operation carries the
fuel bounding its synchronous cascade. -/
inductive ExtOp : Type where
  | onRes (fuel k : Nat)
  | onCan (fuel k : Nat)
  | cancel (fuel : Nat)

def applyExtOp (w : World) (i : Nat) : ExtOp → Option World
  | .onRes fuel k => doOnResolved fuel w i k
  | .onCan fuel k => doOnCancelled fuel w i k
  | .cancel fuel => doCancel fuel w i

def applyExtOps (i : Nat) : World → List ExtOp → Option World
  | w, [] => some w
  | w, op :: rest => (applyExtOp w i op).bind (fun w2 => applyExtOps i w2 rest)

/-- A call that cannot touch any future's state: a user callback, or the
cleanup of an empty aggregate (`() => [].forEach(f => f.cancel())`). -/
def benignCall (c : Call) : Prop :=
  (∃ k a, c = (Cb.user k, a)) ∨ c = (Cb.cancelList [], none)

/-- The reachable states of the aggregate of an empty `all`: still pending
with only user subscribers and the empty-cancel cleanup, or cancelled. -/
def EmptyAggInv (w : World) (i : Nat) : Prop :=
  (∃ rcs ccs : List Nat,
    getObj w i = some (.fut .plain
      (.pending (rcs.map Cb.user) (some (.cancelList [])) (ccs.map Cb.user)))) ∨
  getObj w i = some (.fut .plain .cancelled)

/-- A pre-resolved input element for the `Future.all` scenario: a plain future
completed with a value, or a fallible future completed with a `Result`. -/
inductive Elem : Type where
  | plain : Val → Elem
  | fallible : Res Val Val → Elem

/-- The stored `Result` object of a fallible future. -/
def resToVal : Res Val Val → Val
  | .Ok v => .okv v
  | .Error e => .errv e

def Elem.toObj : Elem → Obj
  | .plain v => .fut .plain (.completed v)
  | .fallible r => .fut .fallible (.completed (resToVal r))

/-- The per-element outcome collected by the fallible aggregate: a plain
element is promoted to `Ok` of its value, a fallible element contributes its
own `Result`. -/
def Elem.outcome : Elem → Val
  | .plain v => .okv v
  | .fallible r => resToVal r

/-- The promoted (`neverError`) futures allocated for the plain elements among
the first `m`. -/
def c5promoted (elems : List Elem) (m : Nat) : List Obj :=
  (elems.take m).filterMap (fun e => match e with
    | .plain v => some (.fut .fallible (.completed (.okv v)))
    | .fallible _ => none)

/-- The aggregate's `results` slots after the first `m` elements fired. -/
def c5slots (elems : List Elem) (m : Nat) : List (Option Val) :=
  (elems.take m).map (fun e => some e.outcome) ++
    List.replicate (elems.length - m) none

/-- The aggregate's state after the first `m` elements fired. -/
def c5agg (elems : List Elem) (m : Nat) : FState :=
  if m = elems.length then
    .completed ((resultAllV (elems.map Elem.outcome)).getD .undef)
  else .pending [] none []

/-- The whole world after the fallible loop of `Future.all` processed the first `m`
elements (elements at positions `< elems.length`, aggregate at position
`elems.length`, promoted futures after it). -/
def c5world (elems : List Elem) (m : Nat) : World :=
  ⟨elems.map Elem.toObj ++ (.fut .fallible (c5agg elems m)) :: c5promoted elems m,
   [(elems.length, ⟨c5slots elems m, m⟩)], [], []⟩

/-- Whether an input element is a fallible future. -/
def Elem.isFall : Elem → Bool
  | .plain _ => false
  | .fallible _ => true

/-- The subscribe-phase world of `Future.all` over initially-pending fallible
elements: the first `m` elements carry their per-element subscriber. -/
def c5pSubW (elems : List (Res Val Val)) (m : Nat) : World :=
  ⟨(elems.enum.map (fun q => Obj.fut .fallible (.pending
      (if q.1 < m then [.allElem elems.length q.1 true] else []) none []))) ++
    [.fut .fallible (.pending [] none [])],
   [(elems.length, ⟨List.replicate elems.length none, 0⟩)], [], []⟩

/-- The cancel-subscribe-phase world: all elements subscribed, the first `p`
also carry the aggregate-cancel subscriber, the aggregate has its cleanup. -/
def c5pCanW (elems : List (Res Val Val)) (p : Nat) : World :=
  ⟨(elems.enum.map (fun q => Obj.fut .fallible (.pending
      [.allElem elems.length q.1 true] none
      (if q.1 < p then [.cancelFut elems.length] else [])))) ++
    [.fut .fallible (.pending [] (some (.cancelList (List.range elems.length))) [])],
   [(elems.length, ⟨List.replicate elems.length none, 0⟩)], [], []⟩

/-- The aggregate's slots once the elements listed in `done` have fired. -/
def c5pSlots (elems : List (Res Val Val)) (done : List Nat) : List (Option Val) :=
  (List.range elems.length).map (fun i =>
    if i ∈ done then (elems[i]?).map resToVal else none)

/-- The aggregate's state once the elements listed in `done` have fired. -/
def c5pAgg (elems : List (Res Val Val)) (done : List Nat) : FState :=
  if done.length = elems.length then
    .completed ((resultAllV (elems.map resToVal)).getD .undef)
  else .pending [] (some (.cancelList (List.range elems.length))) []

/-- The resolution-phase world: the elements listed in `done` have completed
(in any order); the aggregate has resolved exactly when all have. -/
def c5pRunW (elems : List (Res Val Val)) (done : List Nat) : World :=
  ⟨(elems.enum.map (fun q =>
      if q.1 ∈ done then Obj.fut .fallible (.completed (resToVal q.2))
      else Obj.fut .fallible (.pending [.allElem elems.length q.1 true] none
        [.cancelFut elems.length]))) ++
    [.fut .fallible (c5pAgg elems done)],
   [(elems.length, ⟨c5pSlots elems done, done.length⟩)], [], []⟩

/-- Fire the completion callbacks of the listed pending elements, in order:
each element's start routine calls `succeed`/`fail` with its predetermined
`Result`. -/
def c5fire (elems : List (Res Val Val)) : World → List Nat → Option World
  | w, [] => some w
  | w, i :: rest =>
      (run 8 (resolvePrim w i (resToVal (elems.getD i (.Ok .undef)))).1
        (resolvePrim w i (resToVal (elems.getD i (.Ok .undef)))).2).bind
        (fun w2 => c5fire elems w2 rest)

lemma getObj_lt_length {w : World} {i : Nat} {o : Obj} (h : getObj w i = some o) :
    i < w.objs.length := by
  simp only [getObj, List.getElem?_eq_some] at h
  exact h.1

lemma getObj_setObj_self {w : World} {i : Nat} (o : Obj) (h : i < w.objs.length) :
    getObj (setObj w i o) i = some o := by
  simp [getObj, setObj, List.getElem?_set_self', h]

lemma getObj_setObj_ne {w : World} {i j : Nat} (o : Obj) (h : i ≠ j) :
    getObj (setObj w i o) j = getObj w j := by
  simp [getObj, setObj, List.getElem?_set_ne h]

lemma getObj_pushTraces (w : World) (evs : List TraceEv) (i : Nat) :
    getObj (pushTraces w evs) i = getObj w i := rfl

lemma pushTraces_nil (w : World) : pushTraces w [] = w := by
  simp [pushTraces]

lemma run_nil (fuel : Nat) (w : World) : run fuel w [] = some w := by
  cases fuel <;> rfl

lemma run_cons (fuel : Nat) (w : World) (c : Call) (rest : List Call) :
    run (fuel + 1) w (c :: rest) =
      run fuel (step w c.1 c.2).1 ((step w c.1 c.2).2 ++ rest) := rfl

/-- Running a block of user-callback invocations just records them on the
trace, in order. -/
lemma run_users (ks : List Nat) (a : Option Val) (fuel : Nat) (w : World)
    (rest : List Call) :
    run (ks.length + fuel) w (ks.map (fun k => (Cb.user k, a)) ++ rest) =
      run fuel (pushTraces w (ks.map (fun k => (k, a)))) rest := by
  induction ks generalizing w with
  | nil => simp [pushTraces_nil]
  | cons k ks ih =>
      have hf : (k :: ks).length + fuel = (ks.length + fuel) + 1 := by
        simp [List.length_cons]
        omega
      rw [hf, List.map_cons, List.cons_append, run_cons]
      simp only [step]
      rw [List.nil_append, ih]
      congr 1
      simp [pushTraces, pushTrace]

/-- C2: for plain and fallible futures alike, terminal states are immutable:
once completed, later `resolve`/`succeed`/`fail`/`cancel` calls leave the
world (state and trace) unchanged and fire no subscriber; once cancelled,
likewise.  A subscriber registered via `onResolved` after completion is
invoked synchronously, immediately, with the stored terminal value (one trace
event, no state change), a subscriber registered via `onCancelled` after
cancellation is invoked synchronously with no payload, and subscriptions on
the non-matching terminal state are never invoked. -/
theorem C2_terminal_transitions_monotonic :
    (∀ (w : World) (i : Nat) (k : FKind) (v : Val),
      getObj w i = some (.fut k (.completed v)) →
      (∀ fuel v2, doResolve fuel w i v2 = some w) ∧
      (∀ fuel v2, doSucceed fuel w i v2 = some w) ∧
      (∀ fuel e, doFail fuel w i e = some w) ∧
      (∀ fuel, doCancel fuel w i = some w) ∧
      (∀ fuel k2, doOnResolved (fuel + 1) w i k2 = some (pushTrace w k2 (some v))) ∧
      (∀ fuel k2, doOnCancelled fuel w i k2 = some w)) ∧
    (∀ (w : World) (i : Nat) (k : FKind),
      getObj w i = some (.fut k .cancelled) →
      (∀ fuel v2, doResolve fuel w i v2 = some w) ∧
      (∀ fuel v2, doSucceed fuel w i v2 = some w) ∧
      (∀ fuel e, doFail fuel w i e = some w) ∧
      (∀ fuel, doCancel fuel w i = some w) ∧
      (∀ fuel k2, doOnCancelled (fuel + 1) w i k2 = some (pushTrace w k2 none)) ∧
      (∀ fuel k2, doOnResolved fuel w i k2 = some w)) := by
  constructor
  · intro w i k v h
    refine ⟨?_, ?_, ?_, ?_, ?_, ?_⟩
    · intro fuel v2; simp [doResolve, resolvePrim, h, run_nil]
    · intro fuel v2; simp [doSucceed, resolvePrim, h, run_nil]
    · intro fuel e; simp [doFail, resolvePrim, h, run_nil]
    · intro fuel; simp [doCancel, cancelPrim, h, run_nil]
    · intro fuel k2
      simp only [doOnResolved, onResolvedPrim, h]
      rw [show ([(Cb.user k2, some v)] : List Call) = [] ++ [(Cb.user k2, some v)] from rfl]
      have := run_users [k2] (some v) fuel w []
      simp only [List.map_cons, List.map_nil, List.cons_append, List.nil_append,
        List.length_cons, List.length_nil] at this ⊢
      rw [show (1 + fuel) = fuel + 1 from by omega] at this
      rw [this, run_nil]
      rfl
    · intro fuel k2; simp [doOnCancelled, onCancelledPrim, h, run_nil]
  · intro w i k h
    refine ⟨?_, ?_, ?_, ?_, ?_, ?_⟩
    · intro fuel v2; simp [doResolve, resolvePrim, h, run_nil]
    · intro fuel v2; simp [doSucceed, resolvePrim, h, run_nil]
    · intro fuel e; simp [doFail, resolvePrim, h, run_nil]
    · intro fuel; simp [doCancel, cancelPrim, h, run_nil]
    · intro fuel k2
      simp only [doOnCancelled, onCancelledPrim, h]
      have := run_users [k2] none fuel w []
      simp only [List.map_cons, List.map_nil, List.cons_append, List.nil_append,
        List.length_cons, List.length_nil] at this ⊢
      rw [show (1 + fuel) = fuel + 1 from by omega] at this
      rw [this, run_nil]
      rfl
    · intro fuel k2; simp [doOnResolved, onResolvedPrim, h, run_nil]

/-- C2 witness: a concrete completed plain future ignores a second `resolve`
and fires a late `onResolved` subscriber immediately with the stored value; a
concrete cancelled fallible future ignores `cancel`. -/
theorem C2_witness :
    doResolve 3 ⟨[.fut .plain (.completed (.num 5))], [], [], []⟩ 0 (.num 9) =
      some ⟨[.fut .plain (.completed (.num 5))], [], [], []⟩ ∧
    doOnResolved 3 ⟨[.fut .plain (.completed (.num 5))], [], [], []⟩ 0 7 =
      some ⟨[.fut .plain (.completed (.num 5))], [], [], [(7, some (.num 5))]⟩ ∧
    doCancel 3 ⟨[.fut .fallible .cancelled], [], [], []⟩ 0 =
      some ⟨[.fut .fallible .cancelled], [], [], []⟩ :=
  ⟨(C2_terminal_transitions_monotonic.1
      ⟨[.fut .plain (.completed (.num 5))], [], [], []⟩ 0 .plain (.num 5) rfl).1 3 (.num 9),
   (C2_terminal_transitions_monotonic.1
      ⟨[.fut .plain (.completed (.num 5))], [], [], []⟩ 0 .plain (.num 5) rfl).2.2.2.2.1 2 7,
   (C2_terminal_transitions_monotonic.2
      ⟨[.fut .fallible .cancelled], [], [], []⟩ 0 .fallible rfl).2.2.2.1 3⟩

/-- C3: `cancel()` on a pending future (plain or fallible) transitions it to
cancelled and invokes the cleanup routine (when one was recorded) exactly
once, then every queued cancel subscriber exactly once, in subscription order:
the appended trace is exactly the optional cleanup token followed by the
subscriber tokens.  A second `cancel()`, or a later completion attempt, leaves
the resulting world unchanged — cancellation is idempotent. -/
theorem C3_cancel_fires_cleanup_then_subscribers_once :
    ∀ (w : World) (i : Nat) (k : FKind) (rcbs : List Cb) (uc : Option Nat)
      (ucs : List Nat),
      getObj w i = some (.fut k (.pending rcbs (uc.map Cb.user) (ucs.map Cb.user))) →
      ∀ w2, w2 = pushTraces (setObj w i (.fut k .cancelled))
          ((uc.toList ++ ucs).map (fun k2 => (k2, none))) →
        doCancel (uc.toList.length + ucs.length) w i = some w2 ∧
        (∀ fuel, doCancel fuel w2 i = some w2) ∧
        (∀ fuel v, doResolve fuel w2 i v = some w2) := by
  intro w i k rcbs uc ucs h w2 hw2
  have hlt : i < w.objs.length := getObj_lt_length h
  have hget2 : getObj w2 i = some (.fut k .cancelled) := by
    rw [hw2, getObj_pushTraces, getObj_setObj_self _ hlt]
  refine ⟨?_, ?_, ?_⟩
  · simp only [doCancel, cancelPrim, h]
    have hcalls :
        ((uc.map Cb.user).toList ++ ucs.map Cb.user).map (fun cb => (cb, (none : Option Val))) =
          (uc.toList ++ ucs).map (fun k2 => (Cb.user k2, (none : Option Val))) := by
      cases uc <;> simp
    rw [hcalls]
    have hlen : uc.toList.length + ucs.length = ((uc.toList ++ ucs).length + 0) := by
      simp
    rw [hlen]
    rw [show ((uc.toList ++ ucs).map (fun k2 => (Cb.user k2, (none : Option Val)))) =
        ((uc.toList ++ ucs).map (fun k2 => (Cb.user k2, (none : Option Val)))) ++ [] from by simp]
    rw [run_users (uc.toList ++ ucs) none 0 _ []]
    rw [run_nil, hw2]
  · intro fuel
    simp [doCancel, cancelPrim, hget2, run_nil]
  · intro fuel v
    simp [doResolve, resolvePrim, hget2, run_nil]

/-- C3 witness: a concrete pending fallible future with a cleanup routine and
two cancel subscribers: one `cancel()` fires cleanup then both subscribers in
order, and a second `cancel()` changes nothing. -/
theorem C3_witness :
    doCancel 3 ⟨[.fut .fallible (.pending [] (some (.user 7)) [.user 8, .user 9])],
        [], [], []⟩ 0 =
      some ⟨[.fut .fallible .cancelled], [], [], [(7, none), (8, none), (9, none)]⟩ ∧
    doCancel 5 ⟨[.fut .fallible .cancelled], [], [], [(7, none), (8, none), (9, none)]⟩ 0 =
      some ⟨[.fut .fallible .cancelled], [], [], [(7, none), (8, none), (9, none)]⟩ :=
  ⟨(C3_cancel_fires_cleanup_then_subscribers_once
      ⟨[.fut .fallible (.pending [] (some (.user 7)) [.user 8, .user 9])], [], [], []⟩
      0 .fallible [] (some 7) [8, 9] rfl _ rfl).1,
   (C3_cancel_fires_cleanup_then_subscribers_once
      ⟨[.fut .fallible (.pending [] (some (.user 7)) [.user 8, .user 9])], [], [], []⟩
      0 .fallible [] (some 7) [8, 9] rfl _ rfl).2.1 5⟩

/-- C4: for any plain future (arbitrary user subscribers `urs`, optional user
cleanup `uc`, user cancel-subscribers `ucs`) the derived future built by
`map f` (i) resolves to `f v` when the source resolves to `v` (the source's
own subscribers firing with `v`), (ii) reaches `cancelled` — together with the
source — when the derived future is cancelled while both are pending, and
(iii) reaches `cancelled` when the source is cancelled.  In both cancellation
directions the source's cleanup and cancel subscribers fire exactly once. -/
theorem C4_map_resolves_and_cancels_bidirectionally :
    ∀ (f : Val → Val) (urs ucs : List Nat) (uc : Option Nat) (w w1 : World),
      w = ⟨[.fut .plain (.pending (urs.map Cb.user) (uc.map Cb.user) (ucs.map Cb.user))],
           [], [], []⟩ →
      w1 = ⟨[.fut .plain (.pending (urs.map Cb.user ++ [.mapResolve 1 f]) (uc.map Cb.user)
                (ucs.map Cb.user ++ [.cancelFut 1])),
             .fut .plain (.pending [] (some (.cancelFut 0)) [])], [], [], []⟩ →
      Fut.map w 0 f = some (w1, 1) ∧
      (∀ v, doResolve (urs.length + 2) w1 0 v =
          some ⟨[.fut .plain (.completed v), .fut .plain (.completed (f v))], [], [],
                urs.map (fun k => (k, some v))⟩) ∧
      (doCancel (uc.toList.length + ucs.length + 4) w1 1 =
          some ⟨[.fut .plain .cancelled, .fut .plain .cancelled], [], [],
                (uc.toList ++ ucs).map (fun k => (k, none))⟩) ∧
      (doCancel (uc.toList.length + ucs.length + 4) w1 0 =
          some ⟨[.fut .plain .cancelled, .fut .plain .cancelled], [], [],
                (uc.toList ++ ucs).map (fun k => (k, none))⟩) := by
  intro f urs ucs uc w w1 hw hw1
  subst hw hw1
  refine ⟨rfl, ?_, ?_, ?_⟩
  · intro v
    have h1 : doResolve (urs.length + 2)
        ⟨[.fut .plain (.pending (urs.map Cb.user ++ [.mapResolve 1 f]) (uc.map Cb.user)
              (ucs.map Cb.user ++ [.cancelFut 1])),
          .fut .plain (.pending [] (some (.cancelFut 0)) [])], [], [], []⟩ 0 v =
        run (urs.length + 2)
          ⟨[.fut .plain (.completed v),
            .fut .plain (.pending [] (some (.cancelFut 0)) [])], [], [], []⟩
          (urs.map (fun k => (Cb.user k, some v)) ++ [(Cb.mapResolve 1 f, some v)]) := by
      simp [doResolve, resolvePrim, getObj, setObj, List.map_append, List.map_map,
        Function.comp_def]
    rw [h1, run_users urs (some v) 2]
    simp [pushTraces, run_cons, step, resolvePrim, getObj, setObj, run_nil]
  · have h1 : doCancel (uc.toList.length + ucs.length + 4)
        ⟨[.fut .plain (.pending (urs.map Cb.user ++ [.mapResolve 1 f]) (uc.map Cb.user)
              (ucs.map Cb.user ++ [.cancelFut 1])),
          .fut .plain (.pending [] (some (.cancelFut 0)) [])], [], [], []⟩ 1 =
        run (uc.toList.length + ucs.length + 4)
          ⟨[.fut .plain (.pending (urs.map Cb.user ++ [.mapResolve 1 f]) (uc.map Cb.user)
              (ucs.map Cb.user ++ [.cancelFut 1])),
            .fut .plain .cancelled], [], [], []⟩
          [(Cb.cancelFut 0, none)] := by
      simp [doCancel, cancelPrim, getObj, setObj]
    rw [h1]
    have hf : uc.toList.length + ucs.length + 4 = uc.toList.length + ucs.length + 3 + 1 := by
      omega
    rw [hf, run_cons]
    have hstep : step
        ⟨[.fut .plain (.pending (urs.map Cb.user ++ [.mapResolve 1 f]) (uc.map Cb.user)
              (ucs.map Cb.user ++ [.cancelFut 1])),
          .fut .plain .cancelled], [], [], []⟩ (Cb.cancelFut 0) none =
        (⟨[.fut .plain .cancelled, .fut .plain .cancelled], [], [], []⟩,
         (uc.toList ++ ucs).map (fun k => (Cb.user k, (none : Option Val))) ++
           [(Cb.cancelFut 1, none)]) := by
      cases uc <;> simp [step, cancelPrim, getObj, setObj]
    rw [hstep]
    simp only [List.append_nil]
    have hf2 : uc.toList.length + ucs.length + 3 = (uc.toList ++ ucs).length + 3 := by
      simp
    rw [hf2, run_users (uc.toList ++ ucs) none 3]
    simp [pushTraces, run_cons, step, cancelPrim, getObj, setObj, run_nil]
  · have h1 : doCancel (uc.toList.length + ucs.length + 4)
        ⟨[.fut .plain (.pending (urs.map Cb.user ++ [.mapResolve 1 f]) (uc.map Cb.user)
              (ucs.map Cb.user ++ [.cancelFut 1])),
          .fut .plain (.pending [] (some (.cancelFut 0)) [])], [], [], []⟩ 0 =
        run (uc.toList.length + ucs.length + 4)
          ⟨[.fut .plain .cancelled,
            .fut .plain (.pending [] (some (.cancelFut 0)) [])], [], [], []⟩
          ((uc.toList ++ ucs).map (fun k => (Cb.user k, (none : Option Val))) ++
            [(Cb.cancelFut 1, none)]) := by
      cases uc <;>
        simp [doCancel, cancelPrim, getObj, setObj, List.map_append, List.map_map,
          Function.comp_def]
    rw [h1]
    have hf2 : uc.toList.length + ucs.length + 4 = (uc.toList ++ ucs).length + 4 := by
      simp
    rw [hf2, run_users (uc.toList ++ ucs) none 4]
    simp [pushTraces, run_cons, step, cancelPrim, getObj, setObj, run_nil]

/-- C4 witness: a concrete pending source with one resolve subscriber, a
cleanup routine and one cancel subscriber; its mapped future resolves to
`f 2 = [2]`, and cancelling the derived future cancels the source. -/
theorem C4_witness :
    Fut.map ⟨[.fut .plain (.pending [.user 3] (some (.user 4)) [.user 5])], [], [], []⟩
        0 (fun v => .arr [v]) =
      some (⟨[.fut .plain (.pending [.user 3, .mapResolve 1 (fun v => .arr [v])]
                (some (.user 4)) [.user 5, .cancelFut 1]),
              .fut .plain (.pending [] (some (.cancelFut 0)) [])], [], [], []⟩, 1) ∧
    doResolve 3
        ⟨[.fut .plain (.pending [.user 3, .mapResolve 1 (fun v => .arr [v])]
            (some (.user 4)) [.user 5, .cancelFut 1]),
          .fut .plain (.pending [] (some (.cancelFut 0)) [])], [], [], []⟩ 0 (.num 2) =
      some ⟨[.fut .plain (.completed (.num 2)),
             .fut .plain (.completed (.arr [.num 2]))], [], [],
            [(3, some (.num 2))]⟩ ∧
    doCancel 6
        ⟨[.fut .plain (.pending [.user 3, .mapResolve 1 (fun v => .arr [v])]
            (some (.user 4)) [.user 5, .cancelFut 1]),
          .fut .plain (.pending [] (some (.cancelFut 0)) [])], [], [], []⟩ 1 =
      some ⟨[.fut .plain .cancelled, .fut .plain .cancelled], [], [],
            [(4, none), (5, none)]⟩ :=
  ⟨(C4_map_resolves_and_cancels_bidirectionally (fun v => .arr [v]) [3] [5] (some 4)
      _ _ rfl rfl).1,
   (C4_map_resolves_and_cancels_bidirectionally (fun v => .arr [v]) [3] [5] (some 4)
      _ _ rfl rfl).2.1 (.num 2),
   (C4_map_resolves_and_cancels_bidirectionally (fun v => .arr [v]) [3] [5] (some 4)
      _ _ rfl rfl).2.2.1⟩

lemma Res.allGo_oks {T E : Type} (vs : List T) (acc : List T) :
    @Res.allGo T E (vs.map .Ok) acc = .Ok (acc ++ vs) := by
  induction vs generalizing acc with
  | nil => simp [Res.allGo]
  | cons v vs ih => simp [Res.allGo, ih]

lemma Res.allGo_first_error {T E : Type} (vs : List T) (acc : List T) (e : E)
    (suf : List (Res T E)) :
    Res.allGo (vs.map .Ok ++ .Error e :: suf) acc = .Error e := by
  induction vs generalizing acc with
  | nil => simp [Res.allGo]
  | cons v vs ih => simp [Res.allGo, ih]

/-- C6: `Result.all` scans left to right: on a list whose elements are all
`Ok` it returns `Ok` of the unwrapped values in input order, and on any list
containing an `Error` — decomposed as a leading all-`Ok` run followed by the first
`Error` — it returns that first `Error`. -/
theorem C6_result_all_first_error_wins :
    (∀ (T E : Type) (vs : List T), @Res.all T E (vs.map .Ok) = .Ok vs) ∧
    (∀ (T E : Type) (vs : List T) (e : E) (suf : List (Res T E)),
      Res.all (vs.map .Ok ++ .Error e :: suf) = .Error e) :=
  ⟨fun T E vs => by simp [Res.all, Res.allGo_oks],
   fun T E vs e suf => by simp [Res.all, Res.allGo_first_error]⟩

/-- C7 counterexample: the claim says `fromJSON` fails exactly when the kind
discriminant is absent/mismatched or the tag-specific required field is
missing.  But `Option.fromJSON` accepts a `Some`-tagged object whose required
`value` field is missing (returning `Some undefined`), and `Result.fromJSON`
accepts a mismatched kind discriminant as long as a well-formed tag arm
matches (the source guards with `&&`, not `||`). -/
theorem C7_fromJSON_counterexample :
    Opt.fromJSON ⟨some ("Option"), some ("Some"), none, none⟩ =
      .ok (.Some .undef) ∧
    Res.fromJSON ⟨some ("Banana"), some ("Ok"), some (.num 1), none⟩ =
      .ok (.Ok (.num 1)) :=
  ⟨rfl, rfl⟩

/-- C7 (amended): `Option.fromJSON` fails exactly when the kind discriminant
differs from `"Option"`; under a correct kind, a `"Some"` tag yields `Some` of
the `value` field (`undefined` when the field is missing) and any other or
missing tag yields `None`.  `Result.fromJSON` succeeds exactly when a tag arm
matches — an `"Ok"` tag with a present `value` field or an `"Error"` tag with
a present `error` field, regardless of the kind discriminant — and fails
otherwise. -/
theorem C7_fromJSON_characterization :
    (∀ j : JsonObj, j.orfType ≠ some ("Option") →
      Opt.fromJSON j = .error ("Invalid Option JSON")) ∧
    (∀ j : JsonObj, j.orfType = some ("Option") → j.tag = some ("Some") →
      Opt.fromJSON j = .ok (.Some (j.value.getD .undef))) ∧
    (∀ j : JsonObj, j.orfType = some ("Option") → j.tag ≠ some ("Some") →
      Opt.fromJSON j = .ok .None) ∧
    (∀ j : JsonObj, j.tag = some ("Ok") → j.value.isSome →
      Res.fromJSON j = .ok (.Ok (j.value.getD .undef))) ∧
    (∀ j : JsonObj, j.tag = some ("Error") → j.error.isSome →
      Res.fromJSON j = .ok (.Error (j.error.getD .undef))) ∧
    (∀ j : JsonObj, ¬(j.tag = some ("Ok") ∧ j.value.isSome) →
      ¬(j.tag = some ("Error") ∧ j.error.isSome) →
      Res.fromJSON j = .error ("Invalid Result JSON")) := by
  refine ⟨?_, ?_, ?_, ?_, ?_, ?_⟩
  · intro j h; simp [Opt.fromJSON, h]
  · intro j h1 h2; simp [Opt.fromJSON, h1, h2]
  · intro j h1 h2; simp [Opt.fromJSON, h1, h2]
  · intro j h1 h2; simp [Res.fromJSON, h1, h2]
  · intro j h1 h2; simp [Res.fromJSON, h1, h2]
  · intro j h1 h2
    unfold Res.fromJSON
    by_cases ha : j.orfType ≠ some ("Result") ∧ j.tag = none
    · rw [if_pos ha]
    · rw [if_neg ha, if_neg h1, if_neg h2]

/-- C7 witness: concrete instances of the amended characterization — a missing
kind discriminant fails for `Option`, and a well-formed `Error` arm succeeds
for `Result`. -/
theorem C7_witness :
    Opt.fromJSON ⟨none, some ("Some"), some (.num 1), none⟩ =
      .error ("Invalid Option JSON") ∧
    Res.fromJSON ⟨some ("Result"), some ("Error"), none, some (.str ("E"))⟩ =
      .ok (.Error (.str ("E"))) :=
  ⟨C7_fromJSON_characterization.1 ⟨none, some ("Some"), some (.num 1), none⟩ (by simp),
   C7_fromJSON_characterization.2.2.2.2.1
     ⟨some ("Result"), some ("Error"), none, some (.str ("E"))⟩ rfl rfl⟩

/-- C8 counterexample: the claim says only `null`/`undefined` map to `None`
and falsy-but-defined values map to `Some`; but `Option.from` uses the
truthiness check `!thing`, so `0`, `""` and `false` also map to `None`. -/
theorem C8_fromNullable_counterexample :
    Opt.fromNullable (.num 0) = .None ∧
    Opt.fromNullable (.str ("")) = .None ∧
    Opt.fromNullable (.bool false) = .None :=
  ⟨rfl, rfl, rfl⟩

/-- C8 (amended): `Option.from` returns `None` exactly on the falsy values —
`null`, `undefined`, `false`, `0` and `""` — and `Some` of its argument on
every other value. -/
theorem C8_fromNullable_falsy_to_none :
    ∀ v : Val,
      (Opt.fromNullable v = .None ↔
        (v = .vnull ∨ v = .undef ∨ v = .bool false ∨ v = .num 0 ∨ v = .str (""))) ∧
      (Opt.fromNullable v = .None ∨ Opt.fromNullable v = .Some v) := by
  intro v
  cases v with
  | bool b => cases b <;> simp [Opt.fromNullable, truthy]
  | num n =>
      by_cases h : n = 0 <;> simp [Opt.fromNullable, truthy, h]
  | str s =>
      by_cases h : s = "" <;> simp [Opt.fromNullable, truthy, h]
  | _ => simp [Opt.fromNullable, truthy]

/-- C8 witness: the amended theorem applied at `0` and at the truthy value
`1`. -/
theorem C8_witness :
    (Opt.fromNullable (.num 0) = .None ∨ Opt.fromNullable (.num 0) = .Some (.num 0)) ∧
    (Opt.fromNullable (.num 1) = .None ∨ Opt.fromNullable (.num 1) = .Some (.num 1)) :=
  ⟨(C8_fromNullable_falsy_to_none (.num 0)).2, (C8_fromNullable_falsy_to_none (.num 1)).2⟩

/-- C9 (code bug): evaluated at the repository's own failing test input
(`Option.from({test: 1}).tap(val => val.test++)`), `__Some.tap` hands the
callback the live, unfrozen payload: the mutation succeeds and the stored
value changes from `1` to `2` with no exception — contradicting the claim and
the test, which expect a deep-cloned frozen copy and a throw.  `__Ok.tap`, by
contrast, does clone and freeze: the same mutation attempt throws and the live
heap cell is never handed out; `None`/`Error` taps do not invoke the callback
and return the container unchanged. -/
theorem C9_tap_passes_live_value_on_option :
    Opt.tap [⟨1, false⟩] (.Some (.ref 0)) mutateField =
      .ok ([⟨2, false⟩], .Some (.ref 0)) ∧
    Res.tap [⟨1, false⟩] (.Ok (.ref 0)) mutateField = .error ("TypeError") ∧
    Opt.tap [⟨1, false⟩] .None mutateField = .ok ([⟨1, false⟩], .None) ∧
    Res.tap [⟨1, false⟩] (.Error (.ref 0)) mutateField =
      .ok ([⟨1, false⟩], .Error (.ref 0)) :=
  ⟨rfl, rfl, rfl, rfl⟩

/-- C1 (code bug): evaluated at the failing input — `Future.fail(1).unwrap()`
then awaited — the `UnwrappedFuture` built by `__FallibleFuture.unwrap`
resolves to the whole `Result.Error(1)` value: awaiting invokes the fulfilment
handler (token 10) with `Result.Error(1)` and never the rejection handler
(token 11), so nothing is thrown and no bare success payload is produced.
This contradicts the claim (and the repository's own test, which expects the
await to reject with the failure payload); it matches the source's doc
comment.  Cancellation, by contrast, does raise: with a pending source,
awaiting the unwrapped future and then cancelling the source invokes the
rejection handler with an `Error`. -/
theorem C1_unwrap_resolves_failure_instead_of_throwing :
    ((Fut.unwrap ⟨[.fut .fallible (.completed (.errv (.num 1)))], [], [], []⟩ 0).bind
        (fun p => Fut.uThen 8 p.1 p.2 10 11)) =
      some ⟨[.fut .fallible (.completed (.errv (.num 1))),
             .ufut (.completed (.errv (.num 1))) none], [], [],
            [(10, some (.errv (.num 1)))]⟩ ∧
    (((Fut.unwrap ⟨[.fut .fallible (.pending [] none [])], [], [], []⟩ 0).bind
        (fun p => Fut.uThen 8 p.1 p.2 10 11)).bind (fun w => doCancel 8 w 0)) =
      some ⟨[.fut .fallible .cancelled,
             .ufut .cancelled (some (.user 11))], [], [],
            [(11, some (.jsError ("Cannot cancel UnwrappedFuture")))]⟩ :=
  ⟨rfl, rfl⟩

lemma run_benign : ∀ (fuel : Nat) (w : World) (cs : List Call) (w2 : World),
    (∀ c ∈ cs, benignCall c) → run fuel w cs = some w2 →
    w2.objs = w.objs := by
  intro fuel
  induction fuel with
  | zero =>
      intro w cs w2 hb hr
      cases cs with
      | nil => simp [run] at hr; rw [← hr]
      | cons c rest => simp [run] at hr
  | succ fuel ih =>
      intro w cs w2 hb hr
      cases cs with
      | nil => simp [run] at hr; rw [← hr]
      | cons c rest =>
          rw [run_cons] at hr
          rcases hb c (by simp) with ⟨k, a, hc⟩ | hc
          · subst hc
            simp only [step] at hr
            have := ih (pushTrace w k a) rest w2
              (fun c hc => hb c (by simp [hc])) (by simpa using hr)
            simpa [pushTrace] using this
          · subst hc
            simp only [step, List.map_nil] at hr
            exact ih w rest w2 (fun c hc => hb c (by simp [hc])) (by simpa using hr)

lemma emptyAggInv_step {w w2 : World} {i : Nat} (op : ExtOp)
    (hinv : EmptyAggInv w i) (hop : applyExtOp w i op = some w2) :
    EmptyAggInv w2 i := by
  have hlt : i < w.objs.length := by
    rcases hinv with ⟨rcs, ccs, h⟩ | h
    · exact getObj_lt_length h
    · exact getObj_lt_length h
  cases op with
  | onRes fuel k =>
      rcases hinv with ⟨rcs, ccs, h⟩ | h
      · simp only [applyExtOp, doOnResolved, onResolvedPrim, h] at hop
        rw [run_nil] at hop
        cases hop
        exact Or.inl ⟨rcs ++ [k], ccs, by
          rw [getObj_setObj_self _ hlt]; simp⟩
      · simp only [applyExtOp, doOnResolved, onResolvedPrim, h] at hop
        rw [run_nil] at hop
        cases hop
        exact Or.inr h
  | onCan fuel k =>
      rcases hinv with ⟨rcs, ccs, h⟩ | h
      · simp only [applyExtOp, doOnCancelled, onCancelledPrim, h] at hop
        rw [run_nil] at hop
        cases hop
        exact Or.inl ⟨rcs, ccs ++ [k], by
          rw [getObj_setObj_self _ hlt]; simp⟩
      · simp only [applyExtOp, doOnCancelled, onCancelledPrim, h] at hop
        have hobjs := run_benign _ _ _ _ (by
          intro c hc
          simp at hc
          subst hc
          exact Or.inl ⟨k, none, rfl⟩) hop
        refine Or.inr ?_
        rw [show getObj w2 i = w2.objs[i]? from rfl, hobjs]
        exact h
  | cancel fuel =>
      rcases hinv with ⟨rcs, ccs, h⟩ | h
      · simp only [applyExtOp, doCancel, cancelPrim, h] at hop
        have hobjs := run_benign _ _ _ _ (by
          intro c hc
          simp at hc
          rcases hc with hc | ⟨k, hk, hc⟩
          · exact Or.inr (by rw [hc])
          · exact Or.inl ⟨k, none, by rw [← hc]⟩) hop
        refine Or.inr ?_
        rw [show getObj w2 i = w2.objs[i]? from rfl, hobjs]
        exact getObj_setObj_self _ hlt
      · simp only [applyExtOp, doCancel, cancelPrim, h] at hop
        rw [run_nil] at hop
        cases hop
        exact Or.inr h

lemma emptyAggInv_ops : ∀ (ops : List ExtOp) (w w2 : World) (i : Nat),
    EmptyAggInv w i → applyExtOps i w ops = some w2 → EmptyAggInv w2 i := by
  intro ops
  induction ops with
  | nil =>
      intro w w2 i hinv hop
      simp [applyExtOps] at hop
      rw [← hop]; exact hinv
  | cons op rest ih =>
      intro w w2 i hinv hop
      simp only [applyExtOps, Option.bind_eq_bind, Option.bind_eq_some] at hop
      obtain ⟨wmid, hmid, hrest⟩ := hop
      exact ih wmid w2 i (emptyAggInv_step op hinv hmid) hrest

/-- C10: `Future.all` on the empty array and `Future.allFromDict` on the empty
dictionary both return an aggregate that is pending with no way to resolve:
under every sequence of externally available operations (subscriptions and
cancellations, with arbitrary fuel) the aggregate never reaches the completed
state — it stays pending or becomes cancelled — and a single `cancel()` does
transition it to cancelled. -/
theorem C10_empty_all_never_resolves :
    (Fut.all 16 W0 [] =
      some (⟨[.fut .plain (.pending [] (some (.cancelList [])) [])],
             [(0, ⟨[], 0⟩)], [], []⟩, 0)) ∧
    (Fut.allFromDict 16 W0 [] =
      some (⟨[.fut .plain (.pending [] (some (.cancelList [])) [])],
             [], [(0, ⟨[], 0, 0⟩)], []⟩, 0)) ∧
    (∀ (ops : List ExtOp) (w2 : World),
      applyExtOps 0 ⟨[.fut .plain (.pending [] (some (.cancelList [])) [])],
          [(0, ⟨[], 0⟩)], [], []⟩ ops = some w2 →
      tagOf w2 0 ≠ some .completed ∧ valueOf w2 0 = none) ∧
    (∀ (ops : List ExtOp) (w2 : World),
      applyExtOps 0 ⟨[.fut .plain (.pending [] (some (.cancelList [])) [])],
          [], [(0, ⟨[], 0, 0⟩)], []⟩ ops = some w2 →
      tagOf w2 0 ≠ some .completed ∧ valueOf w2 0 = none) ∧
    (doCancel 1 ⟨[.fut .plain (.pending [] (some (.cancelList [])) [])],
        [(0, ⟨[], 0⟩)], [], []⟩ 0 =
      some ⟨[.fut .plain .cancelled], [(0, ⟨[], 0⟩)], [], []⟩) := by
  refine ⟨rfl, rfl, ?_, ?_, rfl⟩
  all_goals
    intro ops w2 hops
    have hinv : EmptyAggInv w2 0 := by
      refine emptyAggInv_ops ops _ w2 0 ?_ hops
      exact Or.inl ⟨[], [], rfl⟩
    rcases hinv with ⟨rcs, ccs, h⟩ | h
    · constructor
      · simp [tagOf, h]
      · simp [valueOf, h]
    · constructor
      · simp [tagOf, h]
      · simp [valueOf, h]

/-- C10 witness: under a concrete operation sequence (subscribe, cancel,
subscribe again) the empty-array aggregate is never completed, and the
single-`cancel()` conjunct holds at its concrete world. -/
theorem C10_witness :
    (∀ w2 : World,
      applyExtOps 0 ⟨[.fut .plain (.pending [] (some (.cancelList [])) [])],
          [(0, ⟨[], 0⟩)], [], []⟩ [.onRes 2 3, .cancel 4, .onCan 2 5] = some w2 →
      tagOf w2 0 ≠ some .completed ∧ valueOf w2 0 = none) :=
  fun w2 h =>
    C10_empty_all_never_resolves.2.2.1 [.onRes 2 3, .cancel 4, .onCan 2 5] w2 h

lemma c5_getObj_elem {elems : List Elem} {i : Nat} {e : Elem}
    (h : elems[i]? = some e) (m : Nat) :
    getObj (c5world elems m) i = some e.toObj := by
  obtain ⟨hi, hval⟩ := List.getElem?_eq_some.mp h
  simp [c5world, getObj, List.getElem?_append, hi, hval]

lemma c5_getObj_agg (elems : List Elem) (m : Nat) :
    getObj (c5world elems m) elems.length =
      some (.fut .fallible (c5agg elems m)) := by
  show (elems.map Elem.toObj ++ (.fut .fallible (c5agg elems m)) :: c5promoted elems m)[elems.length]? = _
  rw [List.getElem?_append_right (by simp)]
  simp

lemma c5slots_length (elems : List Elem) (m : Nat) (hm : m ≤ elems.length) :
    (c5slots elems m).length = elems.length := by
  simp [c5slots, List.length_take]
  omega

lemma resultAllVGo_elems (elems : List Elem) (acc : List Val) :
    (resultAllVGo (elems.map Elem.outcome) acc).isSome := by
  induction elems generalizing acc with
  | nil => simp [resultAllVGo]
  | cons e rest ih =>
      cases e with
      | plain v => simpa [Elem.outcome, resultAllVGo] using ih _
      | fallible r =>
          cases r with
          | Ok v => simpa [Elem.outcome, resToVal, resultAllVGo] using ih _
          | Error err => simp [Elem.outcome, resToVal, resultAllVGo]

lemma list_set_append_length {α : Type} (A B : List α) (x : α) :
    (A ++ B).set A.length x = A ++ B.set 0 x := by
  induction A with
  | nil => simp
  | cons a A ih => simp [List.set, ih]

lemma getObj_append {w : World} {i : Nat} {o : Obj} (h : getObj w i = some o)
    (ext : List Obj) : (w.objs ++ ext)[i]? = some o := by
  have hlt := getObj_lt_length h
  simpa [getObj, List.getElem?_append, hlt] using h

lemma getElem?_append_self (os : List Obj) (x : Obj) (ext : List Obj) :
    (os ++ x :: ext)[os.length]? = some x := by
  rw [List.getElem?_append_right (Nat.le_refl _)]
  simp

lemma c5promoted_succ_plain {elems : List Elem} {m : Nat} {v : Val}
    (he : elems[m]? = some (.plain v)) :
    c5promoted elems (m + 1) =
      c5promoted elems m ++ [.fut .fallible (.completed (.okv v))] := by
  simp [c5promoted, List.take_succ, he, List.filterMap_append]

lemma c5promoted_succ_fallible {elems : List Elem} {m : Nat} {r : Res Val Val}
    (he : elems[m]? = some (.fallible r)) :
    c5promoted elems (m + 1) = c5promoted elems m := by
  simp [c5promoted, List.take_succ, he, List.filterMap_append]

lemma c5slots_succ {elems : List Elem} {m : Nat} {e : Elem}
    (he : elems[m]? = some e) :
    (c5slots elems m).set m (some e.outcome) = c5slots elems (m + 1) := by
  obtain ⟨hm, _⟩ := List.getElem?_eq_some.mp he
  have htm : ((elems.take m).map (fun e => some e.outcome)).length = m := by
    simp [List.length_take]
    omega
  have hrep : List.replicate (elems.length - m) (none : Option Val) =
      none :: List.replicate (elems.length - (m + 1)) none := by
    have : elems.length - m = (elems.length - (m + 1)) + 1 := by omega
    rw [this, List.replicate_succ]
  have hset : ∀ (A B : List (Option Val)) (x : Option Val) (i : Nat), i = A.length →
      (A ++ B).set i x = A ++ B.set 0 x := by
    intro A B x i h
    rw [h, list_set_append_length]
  rw [c5slots, hset _ _ _ _ htm.symm, hrep]
  simp [c5slots, List.take_succ, he, htm]

lemma c5slots_full {elems : List Elem} :
    (c5slots elems elems.length).map (fun o => o.getD .undef) =
      elems.map Elem.outcome := by
  simp [c5slots, List.take_length]

lemma c5_neverError {elems : List Elem} {m : Nat} {v : Val}
    (he : elems[m]? = some (.plain v)) :
    Fut.neverError (c5world elems m) m =
      some ({c5world elems m with
              objs := (c5world elems m).objs ++ [.fut .fallible (.completed (.okv v))]},
            (c5world elems m).objs.length) := by
  have hobj : getObj (c5world elems m) m = some (.fut .plain (.completed v)) := by
    simpa [Elem.toObj] using c5_getObj_elem he m
  set w := c5world elems m with hw
  set J := w.objs.length with hJ
  set W : World := {w with objs := w.objs ++ [.fut .fallible (.pending [] none [])]}
    with hW
  have hg1 : getObj W m = some (.fut .plain (.completed v)) := getObj_append hobj _
  have h1 : onResolvedPrim W m (.succeedFut J) = (W, [(.succeedFut J, some v)]) := by
    unfold onResolvedPrim
    rw [hg1]
  have hg2 : getObj W J = some (.fut .fallible (.pending [] none [])) := by
    show (w.objs ++ [.fut .fallible (.pending [] none [])])[J]? = _
    rw [hJ]
    exact getElem?_append_self w.objs _ []
  set W2 : World := {w with objs := w.objs ++ [.fut .fallible (.completed (.okv v))]}
    with hW2
  have h2 : run 16 W [((.succeedFut J : Cb), some v)] = some W2 := by
    rw [show (16 : Nat) = 15 + 1 from rfl, run_cons]
    simp only [step, Option.getD_some]
    have hset : setObj W J (.fut .fallible (.completed (.okv v))) = W2 := by
      simp only [setObj, hW, hW2, hJ]
      congr 1
      rw [list_set_append_length]
      rfl
    have hres : resolvePrim W J (.okv v) = (W2, []) := by
      unfold resolvePrim
      rw [hg2]
      show (setObj W J (.fut .fallible (.completed (.okv v))), ([] : List Call)) = (W2, [])
      rw [hset]
    rw [hres]
    simp [run_nil]
  have hg3 : getObj W2 J = some (.fut .fallible (.completed (.okv v))) := by
    show (w.objs ++ [.fut .fallible (.completed (.okv v))])[J]? = _
    rw [hJ]
    exact getElem?_append_self w.objs _ []
  have h3 : setCleanup W2 J (.cancelFut m) = W2 := by
    unfold setCleanup
    rw [hg3]
  have hg4 : getObj W2 m = some (.fut .plain (.completed v)) := getObj_append hobj _
  have h4 : onCancelledPrim W2 m (.cancelFut J) = (W2, []) := by
    unfold onCancelledPrim
    rw [hg4]
  show (run 16 (onResolvedPrim W m (.succeedFut J)).1
      (onResolvedPrim W m (.succeedFut J)).2).bind (fun w2 =>
        (run 16 (onCancelledPrim (setCleanup w2 J (.cancelFut m)) m (.cancelFut J)).1
          (onCancelledPrim (setCleanup w2 J (.cancelFut m)) m (.cancelFut J)).2).map
            (fun w4 => (w4, J))) = some (W2, J)
  rw [h1]
  simp only []
  rw [h2]
  simp only [Option.bind_eq_bind, Option.some_bind]
  rw [h3, h4]
  simp [run_nil]

lemma list_set_append_left {α : Type} (A B : List α) (x : α) (i : Nat)
    (h : i < A.length) : (A ++ B).set i x = A.set i x ++ B := by
  induction A generalizing i with
  | nil => simp at h
  | cons a A ih =>
      cases i with
      | zero => simp
      | succ i =>
          simp only [List.cons_append, List.set]
          rw [show A.append B = A ++ B from rfl, ih i (by simpa using h)]

lemma c5_subscribe_fire (elems : List Elem) (m : Nat) (e : Elem)
    (he : elems[m]? = some e) (ext : List Obj) (q : Nat) (K : FKind) (W : World)
    (hW : W = ⟨(c5world elems m).objs ++ ext,
               [(elems.length, ⟨c5slots elems m, m⟩)], [], []⟩)
    (hq : getObj W q = some (.fut K (.completed e.outcome))) :
    run 16 (onResolvedPrim W q (.allElem elems.length m true)).1
        (onResolvedPrim W q (.allElem elems.length m true)).2 =
      some ⟨(elems.map Elem.toObj ++ (.fut .fallible (c5agg elems (m + 1))) ::
              c5promoted elems m) ++ ext,
            [(elems.length, ⟨c5slots elems (m + 1), m + 1⟩)], [], []⟩ := by
  obtain ⟨hm, _⟩ := List.getElem?_eq_some.mp he
  have h1 : onResolvedPrim W q (.allElem elems.length m true) =
      (W, [(.allElem elems.length m true, some e.outcome)]) := by
    unfold onResolvedPrim
    rw [hq]
  rw [h1]
  rw [show (16 : Nat) = 15 + 1 from rfl, run_cons]
  simp only [step, Option.getD_some]
  have hlookup : W.aggs.lookup elems.length = some ⟨c5slots elems m, m⟩ := by
    rw [hW]
    simp [List.lookup]
  have hslotlen : ((c5slots elems m).set m (some e.outcome)).length = elems.length := by
    rw [List.length_set]
    exact c5slots_length elems m (Nat.le_of_lt hm)
  set T : World := ⟨(elems.map Elem.toObj ++ (.fut .fallible (c5agg elems (m + 1))) ::
        c5promoted elems m) ++ ext,
      [(elems.length, ⟨c5slots elems (m + 1), m + 1⟩)], [], []⟩ with hT
  have hWobjs : W.objs = (c5world elems m).objs ++ ext := by rw [hW]
  have haggmap : W.aggs.map (fun p =>
      if p.1 = elems.length then
        (elems.length, (⟨(c5slots elems m).set m (some e.outcome), m + 1⟩ : AggCtx))
      else p) =
      [(elems.length, ⟨c5slots elems (m + 1), m + 1⟩)] := by
    rw [hW]
    simp [c5slots_succ he]
  have hsetagg : ∀ r : Val,
      ((c5world elems m).objs ++ ext).set elems.length (.fut .fallible (.completed r)) =
        (elems.map Elem.toObj ++ (.fut .fallible (.completed r)) ::
          c5promoted elems m) ++ ext := by
    intro r
    have hlt : elems.length < (c5world elems m).objs.length := by
      simp [c5world]
    rw [list_set_append_left _ _ _ _ hlt]
    congr 1
    show ((elems.map Elem.toObj) ++
        (.fut .fallible (c5agg elems m)) :: c5promoted elems m).set
        elems.length (.fut .fallible (.completed r)) = _
    rw [show elems.length = (elems.map Elem.toObj).length from by simp,
      list_set_append_length]
    rfl
  have hstep : allElemStep W elems.length m true e.outcome = (T, ([] : List Call)) := by
    unfold allElemStep
    rw [hlookup]
    simp only [haggmap, hslotlen]
    have hWd : W.dictAggs = [] := by rw [hW]
    have hWt : W.trace = [] := by rw [hW]
    by_cases hmn : m + 1 = elems.length
    · rw [if_pos hmn]
      have hsome := resultAllVGo_elems elems []
      obtain ⟨r, hr⟩ := Option.isSome_iff_exists.mp hsome
      have hfull : ((c5slots elems m).set m (some e.outcome)).map
          (fun o => o.getD .undef) = elems.map Elem.outcome := by
        rw [c5slots_succ he, hmn, c5slots_full]
      rw [hfull]
      rw [show resultAllV (elems.map Elem.outcome) = some r from hr]
      have hAgg : getObj W elems.length = some (.fut .fallible (.pending [] none [])) := by
        have h0' : getObj (c5world elems m) elems.length =
            some (.fut .fallible (.pending [] none [])) := by
          rw [c5_getObj_agg elems m]
          have hc : c5agg elems m = .pending [] none [] := by
            unfold c5agg
            rw [if_neg (by omega)]
          rw [hc]
        show W.objs[elems.length]? = _
        rw [hWobjs]
        exact getObj_append h0' ext
      rw [if_pos trivial]
      have hAgg2 : getObj ⟨W.objs,
          [(elems.length, (⟨c5slots elems (m + 1), m + 1⟩ : AggCtx))],
          W.dictAggs, W.trace⟩ elems.length =
          some (.fut .fallible (.pending [] none [])) := hAgg
      show resolvePrim ⟨W.objs, [(elems.length, ⟨c5slots elems (m + 1), m + 1⟩)],
          W.dictAggs, W.trace⟩ elems.length r = (T, [])
      unfold resolvePrim
      rw [hAgg2]
      show (setObj ⟨W.objs, [(elems.length, ⟨c5slots elems (m + 1), m + 1⟩)],
          W.dictAggs, W.trace⟩ elems.length (.fut .fallible (.completed r)),
        ([] : List Call)) = (T, [])
      simp only [setObj]
      rw [hT, hWd, hWt]
      have hobjs2 : W.objs.set elems.length (.fut .fallible (.completed r)) =
          (elems.map Elem.toObj ++ (.fut .fallible (c5agg elems (m + 1))) ::
            c5promoted elems m) ++ ext := by
        rw [hWobjs, hsetagg r]
        have hc : c5agg elems (m + 1) =
            .completed ((resultAllV (elems.map Elem.outcome)).getD .undef) := by
          unfold c5agg
          rw [if_pos hmn]
        rw [hc, show resultAllV (elems.map Elem.outcome) = some r from hr]
        rfl
      rw [hobjs2]
    · rw [if_neg hmn]
      rw [hT, hW]
      have hc1 : c5agg elems (m + 1) = .pending [] none [] := by
        unfold c5agg
        rw [if_neg hmn]
      have hc0 : c5agg elems m = .pending [] none [] := by
        unfold c5agg
        rw [if_neg (by omega)]
      simp [c5world, hc1, hc0]
  rw [hstep]
  simp [run_nil]

lemma c5_loop : ∀ (c m : Nat) (elems : List Elem), m + c = elems.length →
    Fut.allSubscribeFallible 16 elems.length (c5world elems m)
        ((List.range' m c).map (fun i => (i, i))) =
      some (c5world elems elems.length) := by
  intro c
  induction c with
  | zero =>
      intro m elems hme
      rw [show m = elems.length from by omega]
      simp [Fut.allSubscribeFallible]
  | succ c ih =>
      intro m elems hme
      have hm : m < elems.length := by omega
      obtain ⟨e, he⟩ : ∃ e, elems[m]? = some e :=
        ⟨elems[m], List.getElem?_eq_getElem hm⟩
      have hrange : List.range' m (c + 1) = m :: List.range' (m + 1) c := rfl
      rw [hrange, List.map_cons]
      show ((if isFuture (c5world elems m) m then Fut.neverError (c5world elems m) m
          else some (c5world elems m, m)).bind (fun q =>
            (run 16 (onResolvedPrim q.1 q.2 (.allElem elems.length m true)).1
              (onResolvedPrim q.1 q.2 (.allElem elems.length m true)).2).bind
              (fun w2 => Fut.allSubscribeFallible 16 elems.length w2
                ((List.range' (m + 1) c).map (fun i => (i, i)))))) =
        some (c5world elems elems.length)
      cases e with
      | plain v =>
          have hif : isFuture (c5world elems m) m = true := by
            unfold isFuture
            rw [c5_getObj_elem he m]
            rfl
          rw [hif]
          simp only [if_true]
          rw [c5_neverError he]
          simp only [Option.some_bind]
          have hfire := c5_subscribe_fire elems m (.plain v) he
            [.fut .fallible (.completed (.okv v))]
            (c5world elems m).objs.length .fallible
            ({c5world elems m with
              objs := (c5world elems m).objs ++ [.fut .fallible (.completed (.okv v))]})
            rfl
            (by
              show ((c5world elems m).objs ++ [.fut .fallible (.completed (.okv v))])[(c5world elems m).objs.length]? = _
              exact getElem?_append_self (c5world elems m).objs _ [])
          rw [hfire]
          simp only [Option.some_bind]
          have hT2 : (⟨(elems.map Elem.toObj ++ (.fut .fallible (c5agg elems (m + 1))) ::
              c5promoted elems m) ++ [.fut .fallible (.completed (.okv v))],
              [(elems.length, ⟨c5slots elems (m + 1), m + 1⟩)], [], []⟩ : World) =
              c5world elems (m + 1) := by
            rw [c5world, c5promoted_succ_plain he]
            simp [List.append_assoc]
          rw [hT2]
          exact ih (m + 1) elems (by omega)
      | fallible r =>
          have hif : isFuture (c5world elems m) m = false := by
            unfold isFuture
            rw [c5_getObj_elem he m]
            rfl
          rw [hif]
          simp only [Bool.false_eq_true, if_false]
          simp only [Option.some_bind]
          have hfire := c5_subscribe_fire elems m (.fallible r) he [] m .fallible
            (c5world elems m)
            (by simp [c5world])
            (by simpa [Elem.toObj, Elem.outcome] using c5_getObj_elem he m)
          rw [hfire]
          simp only [Option.some_bind]
          have hT2 : (⟨(elems.map Elem.toObj ++ (.fut .fallible (c5agg elems (m + 1))) ::
              c5promoted elems m) ++ [],
              [(elems.length, ⟨c5slots elems (m + 1), m + 1⟩)], [], []⟩ : World) =
              c5world elems (m + 1) := by
            rw [c5world, c5promoted_succ_fallible he]
            simp
          rw [hT2]
          exact ih (m + 1) elems (by omega)

lemma c5_isFallibleFuture (elems : List Elem) (i : Nat) (e : Elem)
    (he : elems[i]? = some e) :
    isFallibleFuture ⟨elems.map Elem.toObj, [], [], []⟩ i = e.isFall := by
  unfold isFallibleFuture
  obtain ⟨hi, hv⟩ := List.getElem?_eq_some.mp he
  have hg : getObj ⟨elems.map Elem.toObj, [], [], []⟩ i = some e.toObj := by
    simp [getObj, List.getElem?_map, hi, hv]
  rw [hg]
  cases e <;> rfl

lemma c5_any (elems : List Elem) :
    ((List.range elems.length).any (fun i =>
      isFallibleFuture ⟨elems.map Elem.toObj, [], [], []⟩ i)) =
      elems.any Elem.isFall := by
  rw [Bool.eq_iff_iff]
  simp only [List.any_eq_true, List.mem_range]
  constructor
  · rintro ⟨i, hi, hp⟩
    obtain ⟨e, he⟩ : ∃ e, elems[i]? = some e :=
      ⟨elems[i], List.getElem?_eq_getElem hi⟩
    refine ⟨e, List.getElem?_mem he, ?_⟩
    rw [← c5_isFallibleFuture elems i e he]
    exact hp
  · rintro ⟨e, he, hp⟩
    obtain ⟨i, hi, hei⟩ := List.mem_iff_getElem.mp he
    refine ⟨i, hi, ?_⟩
    rw [c5_isFallibleFuture elems i e (by rw [List.getElem?_eq_getElem hi, hei])]
    exact hp

lemma c5_enum_range (n : Nat) :
    (List.range n).enum = (List.range n).map (fun i => (i, i)) := by
  induction n with
  | zero => rfl
  | succ n ih => simp [List.range_succ, List.enum_append, ih]

lemma c5_subscribeCancelAll (l : List Nat) (w : World) (j : Nat)
    (hall : ∀ i ∈ l, ∃ (K : FKind) (v : Val),
      getObj w i = some (.fut K (.completed v))) :
    Fut.subscribeCancelAll 16 j w l = some w := by
  induction l with
  | nil => rfl
  | cons i rest ih =>
      obtain ⟨K, v, h⟩ := hall i (by simp)
      have h1 : onCancelledPrim w i (.cancelFut j) = (w, []) := by
        unfold onCancelledPrim
        rw [h]
      show (run 16 (onCancelledPrim w i (.cancelFut j)).1
          (onCancelledPrim w i (.cancelFut j)).2).bind
          (fun w2 => Fut.subscribeCancelAll 16 j w2 rest) = some w
      rw [h1, run_nil]
      simp only [Option.some_bind]
      exact ih (fun i hi => hall i (by simp [hi]))

lemma c5_world_elems_completed (elems : List Elem) (m i : Nat)
    (hi : i < elems.length) :
    ∃ (K : FKind) (v : Val),
      getObj (c5world elems m) i = some (.fut K (.completed v)) := by
  obtain ⟨e, he⟩ : ∃ e, elems[i]? = some e :=
    ⟨elems[i], List.getElem?_eq_getElem hi⟩
  rw [c5_getObj_elem he m]
  cases e with
  | plain v => exact ⟨.plain, v, rfl⟩
  | fallible r => exact ⟨.fallible, resToVal r, rfl⟩

lemma c5_construction (elems : List Elem) (hne : elems ≠ [])
    (hf : elems.any Elem.isFall = true) :
    Fut.all 16 ⟨elems.map Elem.toObj, [], [], []⟩ (List.range elems.length) =
      some (c5world elems elems.length, elems.length) := by
  have hn : 0 < elems.length := List.length_pos.mpr hne
  unfold Fut.all
  rw [c5_any elems, hf]
  simp only [Bool.not_true, Bool.false_eq_true, if_false]
  have hw1 : (⟨elems.map Elem.toObj ++ [.fut .fallible (.pending [] none [])],
      [] ++ [(elems.length, ⟨List.replicate (List.range elems.length).length none, 0⟩)],
      [], []⟩ : World) = c5world elems 0 := by
    simp only [c5world, c5promoted, c5slots, c5agg]
    rw [if_neg (by omega)]
    simp
  rw [show (⟨elems.map Elem.toObj, [], [], []⟩ : World).objs.length = elems.length
    from by simp]
  rw [hw1, c5_enum_range, List.range_eq_range' elems.length,
    c5_loop elems.length 0 elems (by omega)]
  rw [← List.range_eq_range' elems.length]
  simp only [Option.some_bind]
  have hclean : setCleanup (c5world elems elems.length) elems.length
      (.cancelList (List.range elems.length)) = c5world elems elems.length := by
    unfold setCleanup
    rw [c5_getObj_agg]
    have hc : c5agg elems elems.length =
        .completed ((resultAllV (elems.map Elem.outcome)).getD .undef) := by
      unfold c5agg
      rw [if_pos rfl]
    rw [hc]
  rw [hclean]
  rw [c5_subscribeCancelAll (List.range elems.length) (c5world elems elems.length)
    elems.length (fun i hi => c5_world_elems_completed elems elems.length i
      (List.mem_range.mp hi))]
  rfl

lemma enumMap_ext {α β : Type} (l : List α) (f g : Nat × α → β)
    (h : ∀ i (a : α), l[i]? = some a → f (i, a) = g (i, a)) :
    l.enum.map f = l.enum.map g := by
  apply List.ext_getElem?
  intro j
  simp only [List.getElem?_map, List.getElem?_enum]
  cases hj : l[j]? with
  | none => rfl
  | some a => simp [h j a hj]

lemma enumMap_set {α β : Type} (l : List α) (f g : Nat × α → β) (i : Nat)
    (x : β)
    (hne : ∀ j c, l[j]? = some c → j ≠ i → f (j, c) = g (j, c))
    (hx : ∀ c, l[i]? = some c → g (i, c) = x) (hi : i < l.length) :
    (l.enum.map f).set i x = l.enum.map g := by
  apply List.ext_getElem?
  intro j
  rw [List.getElem?_set]
  by_cases hij : i = j
  · subst hij
    rw [if_pos rfl, if_pos (by simpa using hi)]
    obtain ⟨c, hc⟩ : ∃ c, l[i]? = some c := ⟨l[i], List.getElem?_eq_getElem hi⟩
    simp [List.getElem?_map, List.getElem?_enum, hc, hx c hc]
  · rw [if_neg hij]
    simp only [List.getElem?_map, List.getElem?_enum]
    cases hj : l[j]? with
    | none => rfl
    | some c => simp [hne j c hj (fun hh => hij hh.symm)]

lemma c5p_getObj_elem (elems : List (Res Val Val)) (f : Nat × Res Val Val → Obj)
    (agg : Obj) (aggs : List (Nat × AggCtx)) (i : Nat) (r : Res Val Val)
    (hi : elems[i]? = some r) :
    getObj ⟨elems.enum.map f ++ [agg], aggs, [], []⟩ i = some (f (i, r)) := by
  obtain ⟨hlt, _⟩ := List.getElem?_eq_some.mp hi
  show (elems.enum.map f ++ [agg])[i]? = _
  have hlt2 : i < (elems.enum.map f).length := by simpa using hlt
  simp only [List.getElem?_append, hlt2, if_pos, List.getElem?_map,
    List.getElem?_enum, hi]
  rfl

lemma c5p_getObj_agg (elems : List (Res Val Val)) (f : Nat × Res Val Val → Obj)
    (agg : Obj) (aggs : List (Nat × AggCtx)) :
    getObj ⟨elems.enum.map f ++ [agg], aggs, [], []⟩ elems.length = some agg := by
  show (elems.enum.map f ++ [agg])[elems.length]? = _
  rw [show elems.length = (elems.enum.map f).length from by simp]
  exact getElem?_append_self _ _ []

lemma c5p_subLoop : ∀ (c m : Nat) (elems : List (Res Val Val)),
    m + c = elems.length →
    Fut.allSubscribeFallible 16 elems.length (c5pSubW elems m)
        ((List.range' m c).map (fun i => (i, i))) =
      some (c5pSubW elems elems.length) := by
  intro c
  induction c with
  | zero =>
      intro m elems h
      rw [show m = elems.length from by omega]
      rfl
  | succ c ih =>
      intro m elems h
      have hm : m < elems.length := by omega
      obtain ⟨r, hr⟩ : ∃ r, elems[m]? = some r :=
        ⟨elems[m], List.getElem?_eq_getElem hm⟩
      rw [show List.range' m (c + 1) = m :: List.range' (m + 1) c from rfl,
        List.map_cons]
      show ((if isFuture (c5pSubW elems m) m then Fut.neverError (c5pSubW elems m) m
          else some (c5pSubW elems m, m)).bind (fun q =>
            (run 16 (onResolvedPrim q.1 q.2 (.allElem elems.length m true)).1
              (onResolvedPrim q.1 q.2 (.allElem elems.length m true)).2).bind
              (fun w2 => Fut.allSubscribeFallible 16 elems.length w2
                ((List.range' (m + 1) c).map (fun i => (i, i)))))) =
        some (c5pSubW elems elems.length)
      have hobj : getObj (c5pSubW elems m) m =
          some (Obj.fut .fallible (.pending [] none [])) := by
        have h2 := c5p_getObj_elem elems
          (fun q => Obj.fut .fallible (.pending
            (if q.1 < m then [.allElem elems.length q.1 true] else []) none []))
          (.fut .fallible (.pending [] none []))
          [(elems.length, ⟨List.replicate elems.length none, 0⟩)] m r hr
        simpa using h2
      have hif : isFuture (c5pSubW elems m) m = false := by
        unfold isFuture
        rw [hobj]
      rw [hif]
      simp only [Bool.false_eq_true, if_false, Option.some_bind]
      have hsub : onResolvedPrim (c5pSubW elems m) m (.allElem elems.length m true) =
          (c5pSubW elems (m + 1), []) := by
        unfold onResolvedPrim
        rw [hobj]
        show (setObj (c5pSubW elems m) m
          (.fut .fallible (.pending ([] ++ [.allElem elems.length m true]) none [])),
          ([] : List Call)) = _
        rw [List.nil_append]
        have hset : (c5pSubW elems m).objs.set m
            (Obj.fut .fallible (.pending [.allElem elems.length m true] none [])) =
            (c5pSubW elems (m + 1)).objs := by
          show ((elems.enum.map _) ++ _).set m _ = _
          rw [list_set_append_left _ _ _ _ (by simpa using hm)]
          show _ ++ _ = (elems.enum.map _) ++ _
          congr 1
          apply enumMap_set
          · intro j cc hj hne
            have heq : (j < m) = (j < m + 1) := by
              apply propext
              constructor
              · intro hh; omega
              · intro hh; omega
            simp only [heq]
          · intro cc hcc
            simp
          · exact hm
        have hfin : setObj (c5pSubW elems m) m
            (Obj.fut .fallible (.pending [.allElem elems.length m true] none [])) =
            c5pSubW elems (m + 1) := by
          unfold setObj
          rw [hset]
          rfl
        rw [hfin]
      rw [hsub, run_nil]
      simp only [Option.some_bind]
      exact ih (m + 1) elems (by omega)

lemma c5p_canLoop : ∀ (c p : Nat) (elems : List (Res Val Val)),
    p + c = elems.length →
    Fut.subscribeCancelAll 16 elems.length (c5pCanW elems p)
        (List.range' p c) = some (c5pCanW elems elems.length) := by
  intro c
  induction c with
  | zero =>
      intro p elems h
      rw [show p = elems.length from by omega]
      rfl
  | succ c ih =>
      intro p elems h
      have hp : p < elems.length := by omega
      obtain ⟨r, hr⟩ : ∃ r, elems[p]? = some r :=
        ⟨elems[p], List.getElem?_eq_getElem hp⟩
      rw [show List.range' p (c + 1) = p :: List.range' (p + 1) c from rfl]
      show (run 16 (onCancelledPrim (c5pCanW elems p) p (.cancelFut elems.length)).1
          (onCancelledPrim (c5pCanW elems p) p (.cancelFut elems.length)).2).bind
          (fun w2 => Fut.subscribeCancelAll 16 elems.length w2
            (List.range' (p + 1) c)) = some (c5pCanW elems elems.length)
      have hobj : getObj (c5pCanW elems p) p =
          some (Obj.fut .fallible
            (.pending [.allElem elems.length p true] none [])) := by
        have h2 := c5p_getObj_elem elems
          (fun q => Obj.fut .fallible (.pending
            [.allElem elems.length q.1 true] none
            (if q.1 < p then [.cancelFut elems.length] else [])))
          (.fut .fallible (.pending []
            (some (.cancelList (List.range elems.length))) []))
          [(elems.length, ⟨List.replicate elems.length none, 0⟩)] p r hr
        simpa using h2
      have hcan : onCancelledPrim (c5pCanW elems p) p (.cancelFut elems.length) =
          (c5pCanW elems (p + 1), []) := by
        unfold onCancelledPrim
        rw [hobj]
        show (setObj (c5pCanW elems p) p
          (.fut .fallible (.pending [.allElem elems.length p true] none
            ([] ++ [.cancelFut elems.length]))), ([] : List Call)) = _
        rw [List.nil_append]
        have hset : (c5pCanW elems p).objs.set p
            (Obj.fut .fallible (.pending [.allElem elems.length p true] none
              [.cancelFut elems.length])) = (c5pCanW elems (p + 1)).objs := by
          show ((elems.enum.map _) ++ _).set p _ = _
          rw [list_set_append_left _ _ _ _ (by simpa using hp)]
          show _ ++ _ = (elems.enum.map _) ++ _
          congr 1
          apply enumMap_set
          · intro j cc hj hne
            have heq : (j < p) = (j < p + 1) := by
              apply propext
              constructor
              · intro hh; omega
              · intro hh; omega
            simp only [heq]
          · intro cc hcc
            simp
          · exact hp
        have hfin : setObj (c5pCanW elems p) p
            (Obj.fut .fallible (.pending [.allElem elems.length p true] none
              [.cancelFut elems.length])) = c5pCanW elems (p + 1) := by
          unfold setObj
          rw [hset]
          rfl
        rw [hfin]
      rw [hcan, run_nil]
      simp only [Option.some_bind]
      exact ih (p + 1) elems (by omega)

lemma c5p_constMap_eq_enumMap {β : Type} (elems : List (Res Val Val))
    (x : β) (g : Nat × Res Val Val → β)
    (hg : ∀ i a, elems[i]? = some a → g (i, a) = x) :
    elems.map (fun _ => x) = elems.enum.map g := by
  apply List.ext_getElem?
  intro j
  simp only [List.getElem?_map, List.getElem?_enum]
  cases hj : elems[j]? with
  | none => rfl
  | some a => simp [hg j a hj]

lemma c5p_construction (elems : List (Res Val Val)) (hne : elems ≠ []) :
    Fut.all 16 ⟨elems.map (fun _ => Obj.fut .fallible (.pending [] none [])),
        [], [], []⟩ (List.range elems.length) =
      some (c5pRunW elems [], elems.length) := by
  have hn : 0 < elems.length := List.length_pos.mpr hne
  have hfal : ((List.range elems.length).any (fun i => isFallibleFuture
      ⟨elems.map (fun _ => Obj.fut .fallible (.pending [] none [])),
        [], [], []⟩ i)) = true := by
    rw [List.any_eq_true]
    refine ⟨0, List.mem_range.mpr hn, ?_⟩
    unfold isFallibleFuture
    have h0 : getObj ⟨elems.map (fun _ => Obj.fut .fallible (.pending [] none [])),
        [], [], []⟩ 0 = some (Obj.fut .fallible (.pending [] none [])) := by
      show (elems.map _)[0]? = _
      obtain ⟨r, hr⟩ : ∃ r, elems[0]? = some r :=
        ⟨elems[0], List.getElem?_eq_getElem hn⟩
      simp [List.getElem?_map, List.getElem?_replicate, hr, hn]
    rw [h0]
  unfold Fut.all
  rw [hfal]
  simp only [Bool.not_true, Bool.false_eq_true, if_false]
  have hw1 : (⟨elems.map (fun _ => Obj.fut .fallible (.pending [] none [])) ++
      [Obj.fut .fallible (.pending [] none [])],
      [] ++ [(elems.length,
        ⟨List.replicate (List.range elems.length).length none, 0⟩)],
      [], []⟩ : World) = c5pSubW elems 0 := by
    rw [c5pSubW]
    rw [c5p_constMap_eq_enumMap elems (Obj.fut .fallible (.pending [] none []))
      (fun q => Obj.fut .fallible (.pending
        (if q.1 < 0 then [.allElem elems.length q.1 true] else []) none []))
      (by intro i a hi; simp)]
    simp
  rw [show (⟨elems.map (fun _ => Obj.fut .fallible (.pending [] none [])),
      [], [], []⟩ : World).objs.length = elems.length from by simp]
  rw [hw1, c5_enum_range, List.range_eq_range' elems.length,
    c5p_subLoop elems.length 0 elems (by omega)]
  rw [← List.range_eq_range' elems.length]
  simp only [Option.some_bind]
  have hclean : setCleanup (c5pSubW elems elems.length) elems.length
      (.cancelList (List.range elems.length)) = c5pCanW elems 0 := by
    unfold setCleanup
    have hga : getObj (c5pSubW elems elems.length) elems.length =
        some (Obj.fut .fallible (.pending [] none [])) :=
      c5p_getObj_agg elems _ _ _
    rw [hga]
    have hset : (c5pSubW elems elems.length).objs.set elems.length
        (Obj.fut .fallible (.pending []
          (some (.cancelList (List.range elems.length))) [])) =
        (c5pCanW elems 0).objs := by
      have hone : ∀ (A B : List Obj) (x : Obj) (i : Nat), i = A.length →
          (A ++ B).set i x = A ++ B.set 0 x := by
        intro A B x i h
        rw [h, list_set_append_length]
      show ((elems.enum.map _) ++ _).set elems.length _ = _
      rw [hone _ _ _ _ (by simp)]
      show _ ++ _ = (elems.enum.map _) ++ _
      congr 1
      apply enumMap_ext
      intro i a hi
      have : i < elems.length := (List.getElem?_eq_some.mp hi).1
      simp [this]
    show setObj (c5pSubW elems elems.length) elems.length
      (Obj.fut .fallible (.pending []
        (some (.cancelList (List.range elems.length))) [])) = c5pCanW elems 0
    unfold setObj
    rw [hset]
    rfl
  rw [hclean]
  rw [List.range_eq_range' elems.length,
    c5p_canLoop elems.length 0 elems (by omega)]
  have hfin2 : c5pCanW elems elems.length = c5pRunW elems [] := by
    rw [c5pCanW, c5pRunW]
    have hslots : c5pSlots elems ([] : List Nat) =
        List.replicate elems.length none := by
      simp [c5pSlots, List.map_const]
    have hagg : c5pAgg elems ([] : List Nat) =
        .pending [] (some (.cancelList (List.range elems.length))) [] := by
      unfold c5pAgg
      rw [if_neg (by simp; omega)]
    rw [hslots, hagg]
    have hmap : (elems.enum.map (fun q => Obj.fut .fallible (.pending
        [.allElem elems.length q.1 true] none
        (if q.1 < elems.length then [.cancelFut elems.length] else [])))) =
        (elems.enum.map (fun q =>
          if q.1 ∈ ([] : List Nat) then Obj.fut .fallible (.completed (resToVal q.2))
          else Obj.fut .fallible (.pending [.allElem elems.length q.1 true] none
            [.cancelFut elems.length]))) := by
      apply enumMap_ext
      intro i a hi
      have : i < elems.length := (List.getElem?_eq_some.mp hi).1
      simp [this]
    rw [hmap]
    rfl
  rw [hfin2]
  rfl

lemma rangeMap_set {β : Type} (n : Nat) (f g : Nat → β) (i : Nat) (x : β)
    (hne : ∀ j, j < n → j ≠ i → f j = g j)
    (hx : g i = x) (hi : i < n) :
    ((List.range n).map f).set i x = (List.range n).map g := by
  apply List.ext_getElem?
  intro j
  rw [List.getElem?_set]
  by_cases hij : i = j
  · subst hij
    rw [if_pos rfl, if_pos (by simpa using hi)]
    simp [List.getElem?_range, hi, hx]
  · rw [if_neg hij]
    by_cases hj : j < n
    · simp [List.getElem?_range, hj, hne j hj (fun hh => hij hh.symm)]
    · have hnone : (List.range n)[j]? = none :=
        List.getElem?_eq_none (by simpa using Nat.le_of_not_lt hj)
      simp [hnone]

lemma c5pSlots_set (elems : List (Res Val Val)) (done : List Nat) (i : Nat)
    (r : Res Val Val) (hi : elems[i]? = some r) :
    (c5pSlots elems done).set i (some (resToVal r)) =
      c5pSlots elems (done ++ [i]) := by
  have hlt : i < elems.length := (List.getElem?_eq_some.mp hi).1
  unfold c5pSlots
  apply rangeMap_set
  · intro j hj hij
    simp [List.mem_append, hij]
  · simp [List.mem_append, hi]
  · exact hlt

lemma c5pSlots_length (elems : List (Res Val Val)) (done : List Nat) :
    (c5pSlots elems done).length = elems.length := by
  simp [c5pSlots]

lemma nodup_bounded_le (n : Nat) (l : List Nat) (hnd : l.Nodup)
    (hb : ∀ j ∈ l, j < n) : l.length ≤ n := by
  have hsub : l.toFinset ⊆ Finset.range n := by
    intro x hx
    exact Finset.mem_range.mpr (hb x (List.mem_toFinset.mp hx))
  have hcard := Finset.card_le_card hsub
  rwa [List.toFinset_card_of_nodup hnd, Finset.card_range] at hcard

lemma nodup_bounded_cover (n : Nat) (l : List Nat) (hnd : l.Nodup)
    (hb : ∀ j ∈ l, j < n) (hlen : l.length = n) :
    ∀ j, j < n → j ∈ l := by
  intro j hj
  have hsub : l.toFinset ⊆ Finset.range n := by
    intro x hx
    exact Finset.mem_range.mpr (hb x (List.mem_toFinset.mp hx))
  have hcard : (Finset.range n).card ≤ l.toFinset.card := by
    rw [List.toFinset_card_of_nodup hnd, hlen, Finset.card_range]
  have heq := Finset.eq_of_subset_of_card_le hsub hcard
  have hm : j ∈ l.toFinset := by
    rw [heq]
    exact Finset.mem_range.mpr hj
  exact List.mem_toFinset.mp hm

lemma c5pSlots_full (elems : List (Res Val Val)) (done : List Nat)
    (hcov : ∀ j, j < elems.length → j ∈ done) :
    (c5pSlots elems done).map (fun o => o.getD .undef) =
      elems.map resToVal := by
  apply List.ext_getElem?
  intro j
  simp only [c5pSlots, List.getElem?_map]
  by_cases hj : j < elems.length
  · have hm := hcov j hj
    have hr : elems[j]? = some elems[j] := List.getElem?_eq_getElem hj
    simp [List.getElem?_range, hj, hm, hr]
  · have h1 : (List.range elems.length)[j]? = none :=
      List.getElem?_eq_none (by simpa using Nat.le_of_not_lt hj)
    have h2 : elems[j]? = none := List.getElem?_eq_none (Nat.le_of_not_lt hj)
    simp [h1, h2]

lemma resultAllVGo_res (elems : List (Res Val Val)) (acc : List Val) :
    resultAllVGo (elems.map resToVal) acc =
      some (match Res.allGo elems acc with
        | .Ok vs => .okv (.arr vs)
        | .Error e => .errv e) := by
  induction elems generalizing acc with
  | nil => simp [resultAllVGo, Res.allGo]
  | cons r rest ih =>
      cases r with
      | Ok v => simpa [resToVal, resultAllVGo, Res.allGo] using ih (acc ++ [v])
      | Error e => simp [resToVal, resultAllVGo, Res.allGo]

lemma resultAllV_res (elems : List (Res Val Val)) :
    resultAllV (elems.map resToVal) =
      some (match Res.all elems with
        | .Ok vs => .okv (.arr vs)
        | .Error e => .errv e) :=
  resultAllVGo_res elems []

lemma c5p_fire (elems : List (Res Val Val)) (done : List Nat) (i : Nat)
    (r : Res Val Val) (hi : elems[i]? = some r) (hnd : i ∉ done)
    (hbd : ∀ j ∈ done, j < elems.length) (hnodup : done.Nodup) :
    run 8 (resolvePrim (c5pRunW elems done) i (resToVal r)).1
        ((resolvePrim (c5pRunW elems done) i (resToVal r)).2) =
      some (c5pRunW elems (done ++ [i])) := by
  have hlt : i < elems.length := (List.getElem?_eq_some.mp hi).1
  have hdlt : done.length < elems.length := by
    rcases Nat.lt_or_ge done.length elems.length with h | h
    · exact h
    · exact absurd (nodup_bounded_cover elems.length done hnodup hbd
        (Nat.le_antisymm (nodup_bounded_le elems.length done hnodup hbd) h)
        i hlt) hnd
  have hgo : getObj (c5pRunW elems done) i =
      some (Obj.fut .fallible (.pending [.allElem elems.length i true] none
        [.cancelFut elems.length])) := by
    have h := c5p_getObj_elem elems (fun q =>
        if q.1 ∈ done then Obj.fut .fallible (.completed (resToVal q.2))
        else Obj.fut .fallible (.pending [.allElem elems.length q.1 true] none
          [.cancelFut elems.length]))
      (.fut .fallible (c5pAgg elems done))
      [(elems.length, ⟨c5pSlots elems done, done.length⟩)] i r hi
    simpa [hnd] using h
  have hres : resolvePrim (c5pRunW elems done) i (resToVal r) =
      (setObj (c5pRunW elems done) i (.fut .fallible (.completed (resToVal r))),
        [(.allElem elems.length i true, some (resToVal r))]) := by
    unfold resolvePrim
    rw [hgo]
    rfl
  have hobjs : (setObj (c5pRunW elems done) i
      (.fut .fallible (.completed (resToVal r)))).objs =
      (elems.enum.map (fun q =>
        if q.1 ∈ done ++ [i] then Obj.fut .fallible (.completed (resToVal q.2))
        else Obj.fut .fallible (.pending [.allElem elems.length q.1 true] none
          [.cancelFut elems.length]))) ++
        [.fut .fallible (c5pAgg elems done)] := by
    show ((elems.enum.map _) ++ [Obj.fut .fallible (c5pAgg elems done)]).set i _ = _
    rw [list_set_append_left _ _ _ i (by simpa using hlt)]
    congr 1
    apply enumMap_set
    · intro j c hc hij
      simp [List.mem_append, hij]
    · intro c hc
      rw [hi] at hc
      cases hc
      simp [List.mem_append]
    · exact hlt
  have hWmid : setObj (c5pRunW elems done) i
      (.fut .fallible (.completed (resToVal r))) =
      (⟨(elems.enum.map (fun q =>
          if q.1 ∈ done ++ [i] then Obj.fut .fallible (.completed (resToVal q.2))
          else Obj.fut .fallible (.pending [.allElem elems.length q.1 true] none
            [.cancelFut elems.length]))) ++
          [.fut .fallible (c5pAgg elems done)],
        [(elems.length, ⟨c5pSlots elems done, done.length⟩)], [], []⟩ : World) := by
    rw [← hobjs]
    rfl
  rw [hres, hWmid, show (8 : Nat) = 7 + 1 from rfl, run_cons]
  simp only [step, Option.getD_some]
  have hlookup : (([(elems.length,
      (⟨c5pSlots elems done, done.length⟩ : AggCtx))] : List (Nat × AggCtx)).lookup
        elems.length) = some ⟨c5pSlots elems done, done.length⟩ := by
    simp [List.lookup]
  have hslotlen : ((c5pSlots elems done).set i (some (resToVal r))).length =
      elems.length := by
    rw [List.length_set, c5pSlots_length]
  have haggmap : ([(elems.length,
      (⟨c5pSlots elems done, done.length⟩ : AggCtx))] : List (Nat × AggCtx)).map
      (fun p => if p.1 = elems.length then (elems.length,
        (⟨(c5pSlots elems done).set i (some (resToVal r)),
          done.length + 1⟩ : AggCtx)) else p) =
      [(elems.length, ⟨c5pSlots elems (done ++ [i]), done.length + 1⟩)] := by
    simp [c5pSlots_set elems done i r hi]
  have hstep : allElemStep (⟨(elems.enum.map (fun q =>
        if q.1 ∈ done ++ [i] then Obj.fut .fallible (.completed (resToVal q.2))
        else Obj.fut .fallible (.pending [.allElem elems.length q.1 true] none
          [.cancelFut elems.length]))) ++
        [.fut .fallible (c5pAgg elems done)],
      [(elems.length, ⟨c5pSlots elems done, done.length⟩)], [], []⟩ : World)
      elems.length i true (resToVal r) =
      (c5pRunW elems (done ++ [i]), ([] : List Call)) := by
    unfold allElemStep
    rw [hlookup]
    simp only [haggmap, hslotlen]
    by_cases hfull : done.length + 1 = elems.length
    · have hcov : ∀ j, j < elems.length → j ∈ done ++ [i] := by
        apply nodup_bounded_cover
        · rw [List.nodup_append]
          exact ⟨hnodup, List.nodup_singleton i,
            fun a ha hai => hnd ((List.mem_singleton.mp hai) ▸ ha)⟩
        · intro j hj
          rcases List.mem_append.mp hj with h | h
          · exact hbd j h
          · exact (List.mem_singleton.mp h) ▸ hlt
        · simpa using hfull
      rw [if_pos hfull,
        show ((c5pSlots elems done).set i (some (resToVal r))) =
          c5pSlots elems (done ++ [i]) from c5pSlots_set elems done i r hi,
        c5pSlots_full elems (done ++ [i]) hcov, resultAllV_res]
      have hpend : c5pAgg elems done = .pending []
          (some (.cancelList (List.range elems.length))) [] := by
        unfold c5pAgg
        rw [if_neg (by omega)]
      have hga : getObj (⟨(elems.enum.map (fun q =>
            if q.1 ∈ done ++ [i] then Obj.fut .fallible (.completed (resToVal q.2))
            else Obj.fut .fallible (.pending [.allElem elems.length q.1 true] none
              [.cancelFut elems.length]))) ++
            [.fut .fallible (c5pAgg elems done)],
          [(elems.length, ⟨c5pSlots elems (done ++ [i]), done.length + 1⟩)],
          [], []⟩ : World) elems.length =
          some (.fut .fallible (.pending []
            (some (.cancelList (List.range elems.length))) [])) := by
        show ((elems.enum.map _) ++ [Obj.fut .fallible (c5pAgg elems done)])[elems.length]? = _
        rw [List.getElem?_append_right (by simp)]
        simp [hpend]
      show resolvePrim (⟨(elems.enum.map (fun q =>
            if q.1 ∈ done ++ [i] then Obj.fut .fallible (.completed (resToVal q.2))
            else Obj.fut .fallible (.pending [.allElem elems.length q.1 true] none
              [.cancelFut elems.length]))) ++
            [.fut .fallible (c5pAgg elems done)],
          [(elems.length, ⟨c5pSlots elems (done ++ [i]), done.length + 1⟩)],
          [], []⟩ : World) elems.length
          (match Res.all elems with
            | .Ok vs => .okv (.arr vs)
            | .Error e => .errv e) = (c5pRunW elems (done ++ [i]), [])
      unfold resolvePrim
      rw [hga]
      have hone : ∀ (A B : List Obj) (x : Obj) (j : Nat), j = A.length →
          (A ++ B).set j x = A ++ B.set 0 x := by
        intro A B x j h
        rw [h, list_set_append_length]
      show (setObj (⟨(elems.enum.map (fun q =>
            if q.1 ∈ done ++ [i] then Obj.fut .fallible (.completed (resToVal q.2))
            else Obj.fut .fallible (.pending [.allElem elems.length q.1 true] none
              [.cancelFut elems.length]))) ++
            [.fut .fallible (c5pAgg elems done)],
          [(elems.length, ⟨c5pSlots elems (done ++ [i]), done.length + 1⟩)],
          [], []⟩ : World) elems.length
          (.fut .fallible (.completed (match Res.all elems with
            | .Ok vs => .okv (.arr vs)
            | .Error e => .errv e))),
        ([] : List Call)) = (c5pRunW elems (done ++ [i]), [])
      unfold setObj
      rw [show ((elems.enum.map (fun q =>
          if q.1 ∈ done ++ [i] then Obj.fut .fallible (.completed (resToVal q.2))
          else Obj.fut .fallible (.pending [.allElem elems.length q.1 true] none
            [.cancelFut elems.length]))) ++
          [Obj.fut .fallible (c5pAgg elems done)]).set elems.length
          (Obj.fut .fallible (.completed (match Res.all elems with
            | .Ok vs => .okv (.arr vs)
            | .Error e => .errv e))) =
          (elems.enum.map (fun q =>
            if q.1 ∈ done ++ [i] then Obj.fut .fallible (.completed (resToVal q.2))
            else Obj.fut .fallible (.pending [.allElem elems.length q.1 true] none
              [.cancelFut elems.length]))) ++
            [Obj.fut .fallible (.completed (match Res.all elems with
              | .Ok vs => .okv (.arr vs)
              | .Error e => .errv e))]
        from by
          rw [hone _ _ _ _ (by simp)]
          rfl]
      unfold c5pRunW
      rw [show c5pAgg elems (done ++ [i]) = .completed ((resultAllV
          (elems.map resToVal)).getD .undef) from by
        unfold c5pAgg
        rw [if_pos (by simpa using hfull)]]
      rw [resultAllV_res,
        show (done ++ [i]).length = done.length + 1 from by simp]
      rfl
    · rw [if_neg hfull]
      unfold c5pRunW
      rw [show c5pAgg elems (done ++ [i]) = c5pAgg elems done from by
        unfold c5pAgg
        rw [if_neg (by simp; omega), if_neg (by omega)]]
      rw [show (done ++ [i]).length = done.length + 1 from by simp]
  rw [hstep]
  simp [run_nil]

lemma c5fire_run (elems : List (Res Val Val)) (order : List Nat) :
    ∀ (done : List Nat), (done ++ order).Nodup →
    (∀ j ∈ done ++ order, j < elems.length) →
    c5fire elems (c5pRunW elems done) order =
      some (c5pRunW elems (done ++ order)) := by
  induction order with
  | nil =>
      intro done _ _
      simp [c5fire]
  | cons i rest ih =>
      intro done hnd hbd
      have hilt : i < elems.length := hbd i (by simp)
      have hr : elems[i]? = some (elems.getD i (.Ok .undef)) := by
        rw [List.getD_eq_getElem?_getD, List.getElem?_eq_getElem hilt]
        rfl
      have hnd' : i ∉ done := by
        intro hin
        exact (List.nodup_append.mp hnd).2.2 hin (by simp)
      have hbd' : ∀ j ∈ done, j < elems.length := by
        intro j hj
        exact hbd j (by simp [hj])
      have hfire := c5p_fire elems done i (elems.getD i (.Ok .undef)) hr hnd'
        hbd' (List.nodup_append.mp hnd).1
      show (run 8 _ _).bind _ = _
      rw [hfire, Option.some_bind]
      have hrec := ih (done ++ [i])
        (by rw [List.append_assoc]; exact hnd)
        (by
          intro j hj
          rw [List.append_assoc] at hj
          exact hbd j hj)
      rw [hrec, List.append_assoc]
      rfl

/-- C5: the fallible branch of `Future.all`.  First conjunct: for every
non-empty mixed array of already-settled elements (plain futures holding a
value, fallible futures holding a `Result`), the returned future is a
`FallibleFuture` whose stored value is the `Result.all`-style aggregation of
the element outcomes (first error wins, else `Ok` of the value array in
positional order).  Second conjunct: for every non-empty array of
initially-pending fallible futures and EVERY completion order (any
permutation of the indices), firing the elements one at a time drives the
world to the canonical resolved state, whose aggregate value is exactly the
embedding of `Result.all` over the elements' results — positional order in
the aggregate, arrival order immaterial.  Remaining conjuncts: concrete
mixed plain/fallible executions where the plain element is promoted with
`neverError` and the aggregate resolves only after all elements settle, in
both interleaving orders. -/
theorem C5_fallible_all_promotes_and_aggregates :
    (∀ (elems : List Elem), elems ≠ [] → elems.any Elem.isFall = true →
      ∃ w1, Fut.all 16 ⟨elems.map Elem.toObj, [], [], []⟩
          (List.range elems.length) = some (w1, elems.length) ∧
        isFallibleFuture w1 elems.length = true ∧
        valueOf w1 elems.length = resultAllV (elems.map Elem.outcome)) ∧
    (∀ (elems : List (Res Val Val)) (order : List Nat), elems ≠ [] →
      order.Nodup → (∀ j ∈ order, j < elems.length) →
      order.length = elems.length →
      (Fut.all 16 ⟨elems.map (fun _ => Obj.fut .fallible (.pending [] none [])),
          [], [], []⟩ (List.range elems.length)).bind
        (fun p => c5fire elems p.1 order) = some (c5pRunW elems order) ∧
      valueOf (c5pRunW elems order) elems.length =
        some (match Res.all elems with
          | .Ok vs => .okv (.arr vs)
          | .Error e => .errv e)) ∧
    ((Fut.all 16 ⟨[.fut .plain (.pending [] none []),
        .fut .fallible (.pending [] none [])], [], [], []⟩ [0, 1]).map
        (fun p => (tagOf p.1 p.2, p.2)) = some (some .pending, 2)) ∧
    (((Fut.all 16 ⟨[.fut .plain (.pending [] none []),
        .fut .fallible (.pending [] none [])], [], [], []⟩ [0, 1]).bind
        (fun p => doResolve 16 p.1 0 (.num 4))).map (fun w => tagOf w 2) =
      some (some .pending)) ∧
    ((((Fut.all 16 ⟨[.fut .plain (.pending [] none []),
        .fut .fallible (.pending [] none [])], [], [], []⟩ [0, 1]).bind
        (fun p => doResolve 16 p.1 0 (.num 4))).bind
        (fun w => doFail 16 w 1 (.str ("BOO")))).map (fun w => valueOf w 2) =
      some (some (.errv (.str ("BOO"))))) ∧
    (((Fut.all 16 ⟨[.fut .plain (.pending [] none []),
        .fut .fallible (.pending [] none [])], [], [], []⟩ [0, 1]).bind
        (fun p => doFail 16 p.1 1 (.str ("BOO")))).map (fun w => tagOf w 2) =
      some (some .pending)) ∧
    ((((Fut.all 16 ⟨[.fut .plain (.pending [] none []),
        .fut .fallible (.pending [] none [])], [], [], []⟩ [0, 1]).bind
        (fun p => doFail 16 p.1 1 (.str ("BOO")))).bind
        (fun w => doResolve 16 w 0 (.num 4))).map (fun w => valueOf w 2) =
      some (some (.errv (.str ("BOO"))))) := by
  refine ⟨?_, ?_, rfl, rfl, rfl, rfl, rfl⟩
  · intro elems hne hf
    refine ⟨c5world elems elems.length, c5_construction elems hne hf, ?_, ?_⟩
    · unfold isFallibleFuture
      rw [c5_getObj_agg]
    · unfold valueOf
      rw [c5_getObj_agg]
      have hc : c5agg elems elems.length =
          .completed ((resultAllV (elems.map Elem.outcome)).getD .undef) := by
        unfold c5agg
        rw [if_pos rfl]
      rw [hc]
      obtain ⟨r, hr⟩ := Option.isSome_iff_exists.mp (resultAllVGo_elems elems [])
      rw [show resultAllV (elems.map Elem.outcome) = some r from hr]
      rfl
  · intro elems order hne hnd hbd hlen
    constructor
    · rw [c5p_construction elems hne, Option.some_bind]
      exact c5fire_run elems order [] (by simpa using hnd) (by simpa using hbd)
    · have hc : c5pAgg elems order = .completed ((resultAllV
          (elems.map resToVal)).getD .undef) := by
        unfold c5pAgg
        rw [if_pos hlen]
      have hga : getObj (c5pRunW elems order) elems.length =
          some (.fut .fallible (.completed ((resultAllV
            (elems.map resToVal)).getD .undef))) := by
        show ((elems.enum.map _) ++
          [Obj.fut .fallible (c5pAgg elems order)])[elems.length]? = _
        rw [List.getElem?_append_right (by simp)]
        simp [hc]
      unfold valueOf
      rw [hga, resultAllV_res]
      rfl

/-- C5 witness: the general theorem applied at a concrete mixed array (a
settled plain `4` and a fallible `Error("BOO")`), and at a concrete pending
pair fired out of order (`[1, 0]`), both aggregating to `Error("BOO")`. -/
theorem C5_witness :
    ((Fut.all 16 ⟨[Elem.plain (.num 4), Elem.fallible (.Error (.str ("BOO")))].map
        Elem.toObj, [], [], []⟩ (List.range 2)).map
      (fun p => (valueOf p.1 p.2, isFallibleFuture p.1 p.2, p.2)) =
      some (some (.errv (.str ("BOO"))), true, 2)) ∧
    ((Fut.all 16 ⟨([Res.Ok (Val.num 1), Res.Error (Val.str ("BOO"))]).map
        (fun _ => Obj.fut .fallible (.pending [] none [])), [], [], []⟩
        (List.range 2)).bind
      (fun p => c5fire [Res.Ok (Val.num 1), Res.Error (Val.str ("BOO"))]
        p.1 [1, 0])).map (fun w => valueOf w 2) =
      some (some (.errv (.str ("BOO")))) := by
  constructor
  · obtain ⟨w1, h1, h2, h3⟩ := C5_fallible_all_promotes_and_aggregates.1
      [.plain (.num 4), .fallible (.Error (.str ("BOO")))] (by simp) rfl
    rw [show (List.range 2) =
      List.range ([Elem.plain (.num 4),
        Elem.fallible (.Error (.str ("BOO")))] : List Elem).length from rfl]
    rw [h1]
    simp only [Option.map_some']
    rw [h3, h2]
    rfl
  · obtain ⟨h1, h2⟩ := C5_fallible_all_promotes_and_aggregates.2.1
      [Res.Ok (Val.num 1), Res.Error (Val.str ("BOO"))] [1, 0]
      (by simp) (by decide) (by decide) rfl
    rw [show (List.range 2) = List.range ([Res.Ok (Val.num 1),
      Res.Error (Val.str ("BOO"))] : List (Res Val Val)).length from rfl]
    rw [h1]
    simp only [Option.map_some']
    rw [show (2 : Nat) = ([Res.Ok (Val.num 1),
      Res.Error (Val.str ("BOO"))] : List (Res Val Val)).length from rfl]
    rw [h2]
    rfl

end Orf
